import Mathlib

set_option autoImplicit false
set_option maxRecDepth 16384

/-!
# Verification of the iterative Schrödinger-solver orchestration pipeline

A shallow embedding of the LLM-orchestration core of the repository
(`lib/schrodinger/solver.js`, `lib/schrodinger/latexBuilder` / `intent.js`,
`lib/schrodinger/plan.js`) in Lean 4, together with proofs and refutations of
the frozen specification claims.

Modelling conventions:
* JavaScript strings are modelled as `List Char`.
* JSON values (`JSON.parse` results) are modelled by the inductive type `Json`;
  numbers keep their source lexeme (the solver never does arithmetic on them).
* Network interactions (`fetch` / chat-completion calls) are modelled as
  oracles supplied to the functions that perform them: `callChat` receives the
  outcome of each HTTP attempt, and the iteration engine receives the chat
  response for each round.  Everything the code does *locally* to these
  responses (status classification, JSON extraction/repair, validation,
  normalization, document rendering) is translated faithfully.
* `setTimeout`-based delays do not affect the data flow; the *computed* delay
  values are recorded so that backoff claims can be stated.
-/

namespace SchroPipeline

/-! ## Characters and string helpers (JS strings as `List Char`) -/

/-- The `{` character, via its code point. -/
def lbrace : Char := Char.ofNat 123

/-- The `}` character, via its code point. -/
def rbrace : Char := Char.ofNat 125

/-- Whitespace accepted by `JSON.parse` (space, tab, line feed, carriage return). -/
def isJsonWs (c : Char) : Bool := c = ' ' || c = '\t' || c = '\n' || c = '\r'

/-- Whitespace for the purposes of JS `String.prototype.trim` and the `\s`
regex class (restricted to the ASCII whitespace actually occurring in the
pipeline's data). -/
def isJsWs (c : Char) : Bool :=
  c = ' ' || c = '\t' || c = '\n' || c = '\r' || c = '\x0b' || c = '\x0c'

/-- ASCII decimal digit test. -/
def isDigitCh (c : Char) : Bool := '0' ≤ c && c ≤ '9'

/-- Word character for the JS regex `\b` boundary: `[A-Za-z0-9_]`. -/
def isWordCh (c : Char) : Bool :=
  ('a' ≤ c && c ≤ 'z') || ('A' ≤ c && c ≤ 'Z') || isDigitCh c || c = '_'

/-- ASCII lower-casing, modelling `String.prototype.toLowerCase` on the ASCII
range (all strings compared by the validator are ASCII-compared case folds). -/
def lcChar (c : Char) : Char :=
  if 'A' ≤ c && c ≤ 'Z' then Char.ofNat (c.toNat + 32) else c

/-- Lower-case a JS string. -/
def lcStr (s : List Char) : List Char := s.map lcChar

/-- `String.prototype.trim`: drop leading and trailing whitespace. -/
def trimStr (s : List Char) : List Char :=
  ((s.dropWhile isJsWs).reverse.dropWhile isJsWs).reverse

/-- Decimal digit to character. -/
def digitCh (n : Nat) : Char := Char.ofNat (48 + n % 10)

/-- Auxiliary for `natLex` (fuel-based so that it reduces in the kernel). -/
def natLexAux : Nat → Nat → List Char → List Char
  | 0, _, acc => acc
  | fuel + 1, n, acc =>
      if n = 0 then acc else natLexAux fuel (n / 10) (digitCh (n % 10) :: acc)

/-- Decimal representation of a natural number, as JS stringifies
non-negative integers. -/
def natLex (n : Nat) : List Char :=
  if n = 0 then ['0'] else natLexAux (n + 1) n []

/-- Digits-to-number accumulation (the essence of `parseInt` on a digit run). -/
def digitsToNat (ds : List Char) : Nat :=
  ds.foldl (fun a c => a * 10 + (c.toNat - 48)) 0

/-- Does `pat` occur at the start of `s`? (`String.prototype.startsWith`). -/
def startsWith : List Char → List Char → Bool
  | [], _ => true
  | _ :: _, [] => false
  | p :: ps, c :: cs => p = c && startsWith ps cs

/-- Does `pat` occur anywhere inside `s`? (`String.prototype.includes`). -/
def hasSub (pat : List Char) : List Char → Bool
  | [] => startsWith pat []
  | c :: cs => startsWith pat (c :: cs) || hasSub pat cs

/-- Index of the first occurrence of character `ch` (`String.prototype.indexOf`
restricted to single-character needles, as an `Option`). -/
def idxOfCh (ch : Char) : List Char → Option Nat
  | [] => none
  | c :: cs =>
      if c = ch then some 0
      else (idxOfCh ch cs).map (· + 1)

/-- All indexes at which character `ch` occurs, in increasing order. -/
def positionsOfCh (ch : Char) (s : List Char) : List Nat :=
  (List.range s.length).filter (fun i => s.get? i = some ch)

/-! ## JSON values

`JSON.parse` results.  Numbers keep their surface lexeme: the pipeline never
computes with JSON numbers, it only tests truthiness and re-serializes them. -/

inductive Json where
  | null : Json
  | bool (b : Bool) : Json
  | num (lex : List Char) : Json
  | str (s : List Char) : Json
  | arr (items : List Json) : Json
  | obj (fields : List (List Char × Json)) : Json
  deriving Inhabited

/-- Property read `o[key]`: `some` when present on an object, `none` models
JS `undefined` (also for reads on non-objects). -/
def objGet (j : Json) (key : List Char) : Option Json :=
  match j with
  | .obj fs => go fs
  | _ => none
where
  go : List (List Char × Json) → Option Json
    | [] => none
    | (k, v) :: rest => if k = key then some v else go rest

/-- Property write `o[key] = v` on an object: overwrite in place if the key
exists (keeping its position, as JS does), else append.  Writes to non-objects
are not observable in the modelled flows and leave the value unchanged. -/
def objSet (j : Json) (key : List Char) (v : Json) : Json :=
  match j with
  | .obj fs => .obj (go fs)
  | other => other
where
  go : List (List Char × Json) → List (List Char × Json)
    | [] => [(key, v)]
    | (k, w) :: rest => if k = key then (k, v) :: rest else (k, w) :: go rest

/-- Is a JSON number lexeme numerically zero?  (Every digit of the mantissa is
`0`; an exponent cannot make a zero mantissa non-zero.) -/
def numLexIsZero (lex : List Char) : Bool :=
  (lex.takeWhile (fun c => c ≠ 'e' && c ≠ 'E')).all
    (fun c => !('1' ≤ c && c ≤ '9'))

/-- JS truthiness of a JSON value. -/
def jsTruthy : Json → Bool
  | .null => false
  | .bool b => b
  | .num lex => !numLexIsZero lex
  | .str s => !s.isEmpty
  | .arr _ => true
  | .obj _ => true

/-- Truthiness of a property read (JS `undefined` is falsy). -/
def optTruthy : Option Json → Bool
  | none => false
  | some v => jsTruthy v

/-- `a || b` on a possibly-undefined left operand. -/
def jsOr (a : Option Json) (b : Json) : Json :=
  match a with
  | some v => if jsTruthy v then v else b
  | none => b

/-- `(x.latex || x.text || '')` restricted to the string outcomes that the
pipeline's data can produce: the first truthy operand when it is a string, the
empty string when all operands are falsy or missing.  (A truthy non-string
`latex`/`text` would make the original code throw on `.trim()`; no claim
exercises that path and it is not modelled.) -/
def firstTruthyStr (a b : Option Json) : List Char :=
  match jsOr a (jsOr b (.str [])) with
  | .str s => s
  | _ => []

/-- JS template-literal stringification `${v}` of the JSON values that can
appear in the pipeline (`String(v)`): strings stay themselves, numbers print
their lexeme, arrays join with commas, plain objects print
`[object Object]`. -/
def jsToStr : Json → List Char
  | .null => "null".toList
  | .bool true => "true".toList
  | .bool false => "false".toList
  | .num lex => lex
  | .str s => s
  | .arr items => joinComma items
  | .obj _ => "[object Object]".toList
  termination_by structural j => j
where
  joinComma : List Json → List Char
    | [] => []
    | [.null] => []
    | [x] => jsToStr x
    | .null :: rest => ',' :: joinComma rest
    | x :: rest => jsToStr x ++ ',' :: joinComma rest

/-! ## A model of `JSON.parse` -/

/-- Hex digit value. -/
def hexVal (c : Char) : Option Nat :=
  if '0' ≤ c && c ≤ '9' then some (c.toNat - 48)
  else if 'a' ≤ c && c ≤ 'f' then some (c.toNat - 87)
  else if 'A' ≤ c && c ≤ 'F' then some (c.toNat - 55)
  else none

/-- Parse the body of a JSON string literal (after the opening quote),
returning the decoded characters and the rest of the input after the closing
quote. -/
def parseStrBody : Nat → List Char → Option (List Char × List Char)
  | 0, _ => none
  | _, [] => none
  | fuel + 1, c :: cs =>
      if c = '"' then some ([], cs)
      else if c = '\\' then
        match cs with
        | [] => none
        | e :: cs' =>
            let cont (d : Char) (rest : List Char) :=
              (parseStrBody fuel rest).map (fun (s, r) => (d :: s, r))
            if e = '"' then cont '"' cs'
            else if e = '\\' then cont '\\' cs'
            else if e = '/' then cont '/' cs'
            else if e = 'b' then cont '\x08' cs'
            else if e = 'f' then cont '\x0c' cs'
            else if e = 'n' then cont '\n' cs'
            else if e = 'r' then cont '\r' cs'
            else if e = 't' then cont '\t' cs'
            else if e = 'u' then
              match cs' with
              | h1 :: h2 :: h3 :: h4 :: cs'' =>
                  match hexVal h1, hexVal h2, hexVal h3, hexVal h4 with
                  | some a, some b, some c2, some d2 =>
                      cont (Char.ofNat (((a * 16 + b) * 16 + c2) * 16 + d2)) cs''
                  | _, _, _, _ => none
              | _ => none
            else none
      else if c.toNat < 32 then none
      else (parseStrBody fuel cs).map (fun (s, r) => (c :: s, r))

/-- Parse a JSON number lexeme at the head of the input
(`-? (0 | [1-9][0-9]*) (. [0-9]+)? ([eE][+-]?[0-9]+)?`), returning the lexeme
and the rest. -/
def parseNumLex (cs : List Char) : Option (List Char × List Char) :=
  let (sign, cs1) :=
    match cs with
    | '-' :: rest => (['-'], rest)
    | _ => (([] : List Char), cs)
  match cs1 with
  | [] => none
  | c :: _ =>
      if !isDigitCh c then none
      else
        let intPart := cs1.takeWhile isDigitCh
        let cs2 := cs1.dropWhile isDigitCh
        if intPart.length > 1 && intPart.headD '0' = '0' then none
        else
          let (fracPart, cs3) :=
            match cs2 with
            | '.' :: rest =>
                let ds := rest.takeWhile isDigitCh
                if ds.isEmpty then ([], cs2)
                else ('.' :: ds, rest.dropWhile isDigitCh)
            | _ => (([] : List Char), cs2)
          if cs3 ≠ cs2 || fracPart.isEmpty then
            match cs2, fracPart with
            | '.' :: rest, [] =>
                -- a bare `12.` is invalid JSON
                if (rest.takeWhile isDigitCh).isEmpty then none
                else parseExpPart (sign ++ intPart ++ fracPart) cs3
            | _, _ => parseExpPart (sign ++ intPart ++ fracPart) cs3
          else parseExpPart (sign ++ intPart ++ fracPart) cs3
where
  parseExpPart (lex : List Char) (cs : List Char) :
      Option (List Char × List Char) :=
    match cs with
    | e :: rest =>
        if e = 'e' || e = 'E' then
          let (es, rest1) :=
            match rest with
            | '+' :: r => (['+'], r)
            | '-' :: r => (['-'], r)
            | _ => (([] : List Char), rest)
          let ds := rest1.takeWhile isDigitCh
          if ds.isEmpty then none
          else some (lex ++ e :: es ++ ds, rest1.dropWhile isDigitCh)
        else some (lex, cs)
    | [] => some (lex, cs)

mutual

/-- Parse one JSON value at the head of the input (whitespace-tolerant),
returning it and the remaining input. -/
def parseVal : Nat → List Char → Option (Json × List Char)
  | 0, _ => none
  | fuel + 1, cs =>
      match cs.dropWhile isJsonWs with
      | [] => none
      | c :: rest =>
          if c = lbrace then parseObjItems fuel rest []
          else if c = '[' then parseArrItems fuel rest []
          else if c = '"' then
            (parseStrBody (rest.length + 1) rest).map
              (fun (s, r) => (.str s, r))
          else if startsWith "true".toList (c :: rest) then
            some (.bool true, (c :: rest).drop 4)
          else if startsWith "false".toList (c :: rest) then
            some (.bool false, (c :: rest).drop 5)
          else if startsWith "null".toList (c :: rest) then
            some (.null, (c :: rest).drop 4)
          else
            (parseNumLex (c :: rest)).map (fun (l, r) => (.num l, r))

/-- Parse the items of a JSON array after `[` (or after a `,`). -/
def parseArrItems : Nat → List Char → List Json → Option (Json × List Char)
  | 0, _, _ => none
  | fuel + 1, cs, acc =>
      match cs.dropWhile isJsonWs with
      | ']' :: rest =>
          if acc.isEmpty then some (.arr [], rest) else none
      | other =>
          match parseVal fuel other with
          | none => none
          | some (v, rest) =>
              match rest.dropWhile isJsonWs with
              | ',' :: rest' => parseArrItems fuel rest' (acc ++ [v])
              | ']' :: rest' => some (.arr (acc ++ [v]), rest')
              | _ => none

/-- Parse the members of a JSON object after `{` (or after a `,`).  Duplicate
keys follow JS semantics: the later value overwrites in place. -/
def parseObjItems : Nat → List Char → List (List Char × Json) →
    Option (Json × List Char)
  | 0, _, _ => none
  | fuel + 1, cs, acc =>
      match cs.dropWhile isJsonWs with
      | c :: rest =>
          if c = rbrace then
            if acc.isEmpty then some (.obj [], rest) else none
          else if c = '"' then
            match parseStrBody (rest.length + 1) rest with
            | none => none
            | some (key, afterKey) =>
                match afterKey.dropWhile isJsonWs with
                | ':' :: afterColon =>
                    match parseVal fuel afterColon with
                    | none => none
                    | some (v, rest') =>
                        let acc' := objSet.go key v acc
                        match rest'.dropWhile isJsonWs with
                        | ',' :: rest'' => parseObjItems fuel rest'' acc'
                        | r :: rest'' =>
                            if r = rbrace then some (.obj acc', rest'')
                            else none
                        | [] => none
                | _ => none
          else none
      | [] => none

end

/-- `JSON.parse`: the whole input must be one JSON value surrounded only by
whitespace; `none` models the thrown `SyntaxError`. -/
def jsonParse (s : List Char) : Option Json :=
  match parseVal (s.length + 1) s with
  | some (v, rest) => if (rest.dropWhile isJsonWs).isEmpty then some v else none
  | none => none

/-! ## `JSON.stringify` -/

/-- Escape one character for a JSON string literal. -/
def jsonEscapeCh (c : Char) : List Char :=
  if c = '"' then ['\\', '"']
  else if c = '\\' then ['\\', '\\']
  else if c = '\n' then ['\\', 'n']
  else if c = '\r' then ['\\', 'r']
  else if c = '\t' then ['\\', 't']
  else if c = '\x08' then ['\\', 'b']
  else if c = '\x0c' then ['\\', 'f']
  else if c.toNat < 32 then
    '\\' :: 'u' :: '0' :: '0' :: digitCh (c.toNat / 16) :: [digitCh (c.toNat % 16)]
  else [c]

mutual

/-- `JSON.stringify` of a parsed value (no indentation argument). -/
def stringify : Json → List Char
  | .null => "null".toList
  | .bool true => "true".toList
  | .bool false => "false".toList
  | .num lex => lex
  | .str s => stringifyStr s
  | .arr items => '[' :: stringifyItems items ++ [']']
  | .obj fs => lbrace :: stringifyMembers fs ++ [rbrace]
  termination_by structural j => j

/-- Comma-joined serialization of array items. -/
def stringifyItems : List Json → List Char
  | [] => []
  | [x] => stringify x
  | x :: rest => stringify x ++ ',' :: stringifyItems rest
  termination_by structural l => l

/-- A serialized JSON string literal (object keys and string values). -/
def stringifyStr (s : List Char) : List Char :=
  '"' :: s.flatMap jsonEscapeCh ++ ['"']

/-- Comma-joined serialization of object members. -/
def stringifyMembers : List (List Char × Json) → List Char
  | [] => []
  | [(k, v)] => stringifyStr k ++ ':' :: stringify v
  | (k, v) :: rest =>
      stringifyStr k ++ ':' :: stringify v ++ ',' :: stringifyMembers rest
  termination_by structural l => l

end

/-! ## Structured-output extractor / repairer
(`extractJSON` and `repairIncompleteJSON` in `lib/schrodinger/solver.js`) -/

/-- State of `repairIncompleteJSON`'s character scan: whether the scan is
inside a quoted string, the net `{}` depth and the net `[]` depth (both may go
negative on stray closers, as in the source). -/
structure RepairScan where
  inString : Bool
  braceDepth : Int
  bracketDepth : Int

/-- One step of the scan: quotes toggle string state unless the previous
character was a backslash; depth counters move only outside strings. -/
def repairStep (st : RepairScan × Char) (ch : Char) : RepairScan × Char :=
  let (s, lastChar) := st
  let s' :=
    if ch = '"' && lastChar ≠ '\\' then
      { s with inString := !s.inString }
    else if !s.inString then
      if ch = lbrace then { s with braceDepth := s.braceDepth + 1 }
      else if ch = rbrace then { s with braceDepth := s.braceDepth - 1 }
      else if ch = '[' then { s with bracketDepth := s.bracketDepth + 1 }
      else if ch = ']' then { s with bracketDepth := s.bracketDepth - 1 }
      else s
    else s
  (s', ch)

/-- Scan a whole string, starting outside any string with empty `lastChar`
(the source initializes `lastChar = ''`, which never equals `'\\'`). -/
def repairScan (json : List Char) : RepairScan :=
  (json.foldl repairStep (⟨false, 0, 0⟩, '\x00')).1

/-- The closing characters appended by the repair, in source order: close an
open string first, then every open array, then every open object. -/
def repairClosers (st : RepairScan) : List Char :=
  (if st.inString then ['"'] else []) ++
    List.replicate st.bracketDepth.toNat ']' ++
    List.replicate st.braceDepth.toNat rbrace

/-- The candidate string that `repairIncompleteJSON` hands to `JSON.parse`:
the input from its first `{`, with the closers appended. -/
def repairCandidate (s : List Char) : List Char :=
  match idxOfCh lbrace s with
  | none => []
  | some start =>
      let json := s.drop start
      json ++ repairClosers (repairScan json)

/-- The regex probe `/"k"\s*:\s*(\d+)/` of the minimal fallback: the first
digit run following `"k"` `\s*` `:` `\s*`, as a number (`parseInt`). -/
def findKNum : List Char → Option Nat
  | [] => none
  | c :: cs =>
      match matchAt (c :: cs) with
      | some n => some n
      | none => findKNum cs
where
  matchAt (s : List Char) : Option Nat :=
    if startsWith ['"', 'k', '"'] s then
      let afterColon :=
        match (s.drop 3).dropWhile isJsWs with
        | ':' :: rest => some (rest.dropWhile isJsWs)
        | _ => none
      match afterColon with
      | some rest =>
          let ds := rest.takeWhile isDigitCh
          if ds.isEmpty then none else some (digitsToNat ds)
      | none => none
    else none

/-- The placeholder fields of the minimal fallback record. -/
def fallbackGoal : List Char :=
  "Continue derivation (recovered from truncated output)".toList

/-- Placeholder `analysis` of the minimal fallback record. -/
def fallbackAnalysis : List Char :=
  "Output was truncated, continuing with minimal iteration".toList

/-- Placeholder `result_summary` of the minimal fallback record. -/
def fallbackSummary : List Char :=
  "Iteration truncated - please use a larger model or reduce complexity".toList

/-- The minimal fallback record returned when even the repaired candidate does
not parse: a best-effort `k` (regex-extracted, else 1), placeholder strings
flagging truncation, and an empty equation list. -/
def fallbackRecord (s : List Char) : Json :=
  .obj
    [ ("k".toList, .num (natLex ((findKNum s).getD 1)))
    , ("goal".toList, .str fallbackGoal)
    , ("analysis".toList, .str fallbackAnalysis)
    , ("equations".toList, .arr [])
    , ("result_summary".toList, .str fallbackSummary) ]

/-- Default used when a repaired record misses `result_summary`. -/
def truncatedSummary : List Char :=
  "Partial iteration (output was truncated)".toList

/-- The post-parse field defaults of `repairIncompleteJSON`: ensure `k`,
`goal`, `analysis`, `equations` (must be an array), `result_summary`. -/
def ensureFields (parsed : Json) : Json :=
  let p1 :=
    if !optTruthy (objGet parsed "k".toList) then
      objSet parsed "k".toList (.num ['1'])
    else parsed
  let p2 :=
    if !optTruthy (objGet p1 "goal".toList) then
      objSet p1 "goal".toList (.str "Continue derivation".toList)
    else p1
  let p3 :=
    if !optTruthy (objGet p2 "analysis".toList) then
      objSet p2 "analysis".toList (.str "Continuing the solution".toList)
    else p2
  let p4 :=
    match objGet p3 "equations".toList with
    | some (.arr _) => p3
    | _ => objSet p3 "equations".toList (.arr [])
  if !optTruthy (objGet p4 "result_summary".toList) then
    objSet p4 "result_summary".toList (.str truncatedSummary)
  else p4

/-- `repairIncompleteJSON`: close whatever the truncation left open and
re-parse; on success fill in missing required fields, on failure synthesize
the minimal fallback record.  Returns `none` (JS `null`) only for an empty
input or one containing no `{`. -/
def repairIncompleteJSON (s : List Char) : Option Json :=
  if s.isEmpty then none
  else
    match idxOfCh lbrace s with
    | none => none
    | some _ =>
        match jsonParse (repairCandidate s) with
        | some parsed => some (ensureFields parsed)
        | none => some (fallbackRecord s)

/-- Stage 1 of `extractJSON`: the greedy regex `/\{[\s\S]*\}/` — the span from
the first `{` to the last `}` when the latter comes after the former. -/
def greedyCandidate (s : List Char) : Option (List Char) :=
  match idxOfCh lbrace s, idxOfCh rbrace s.reverse with
  | some i, some revJ =>
      if i < s.length - 1 - revJ then
        some ((s.drop i).take (s.length - 1 - revJ - i + 1))
      else none
  | _, _ => none

/-- Stage 2 helper: walk from a `{`, counting brace depth (string-blind, as in
the source), and return the span at which depth first returns to zero. -/
def balancedSpan : List Char → Option (List Char) :=
  fun cs => go cs 0 []
where
  go : List Char → Int → List Char → Option (List Char)
    | [], _, _ => none
    | c :: cs, depth, acc =>
        if c = lbrace then go cs (depth + 1) (acc ++ [c])
        else if c = rbrace then
          if depth = 1 then some (acc ++ [c])
          else go cs (depth - 1) (acc ++ [c])
        else go cs depth (acc ++ [c])

/-- Stage 2 of `extractJSON`: try each `{` position in order; for each, parse
the first balanced span (if any) and move on to the next `{` on failure. -/
def tryStarts (s : List Char) : List Nat → Option Json
  | [] => none
  | p :: ps =>
      match balancedSpan (s.drop p) with
      | some candidate =>
          match jsonParse candidate with
          | some v => some v
          | none => tryStarts s ps
      | none => tryStarts s ps

/-- `extractJSON`: greedy regex parse, then brace-balance extraction, then
truncation repair. -/
def extractJSON (s : List Char) : Option Json :=
  if s.isEmpty then none
  else
    match (greedyCandidate s).bind jsonParse with
    | some v => some v
    | none =>
        match tryStarts s (positionsOfCh lbrace s) with
        | some v => some v
        | none => repairIncompleteJSON s

/-! ## Validator (`validateIteration` in `lib/schrodinger/solver.js`) -/

/-- Shorthand for string literals as JS strings. -/
def lit (s : String) : List Char := s.toList

/-- `Array.isArray(it.equations) ? it.equations : []`. -/
def eqsOf (it : Json) : List Json :=
  match objGet it (lit "equations") with
  | some (.arr xs) => xs
  | _ => []

/-- The minimum equation count of the quality gate.  The source fixes
`const minEquations = 5` (comment: "Reduced from 6-10 to accommodate 1000
token limit") — it does not consult the detail level. -/
def minEquations : Nat := 5

/-- Check 1: enough equations (`eqs.length < minEquations` rejects). -/
def eqCountOk (eqs : List Json) : Bool := !(eqs.length < minEquations)

/-- An equation with both `latex` and `text` empty/missing (check 2 rejects
when any such equation exists). -/
def isEmptyEq (e : Json) : Bool :=
  !optTruthy (objGet e (lit "latex")) && !optTruthy (objGet e (lit "text"))

/-- Check 2: no equation may be empty. -/
def noEmptyEq (eqs : List Json) : Bool := !(eqs.any isEmptyEq)

/-- `v.length < n` for JS values: only strings and arrays expose a numeric
`length`; for other values the comparison is against `undefined` and is
false. -/
def lenLt (v : Json) (n : Nat) : Bool :=
  match v with
  | .str s => s.length < n
  | .arr xs => xs.length < n
  | _ => false

/-- `n < v.length` under the same convention. -/
def lenGt (v : Json) (n : Nat) : Bool :=
  match v with
  | .str s => n < s.length
  | .arr xs => n < xs.length
  | _ => false

/-- `e.text && e.text.length > 10` (check 3's justification test). -/
def hasJustification (e : Json) : Bool :=
  match objGet e (lit "text") with
  | some v => jsTruthy v && lenGt v 10
  | none => false

/-- Check 3: at least 60 % of the equations carry a justification.
The source compares `withJustification.length < eqs.length * 0.6`; over the
list lengths attainable here the binary-float product `n * 0.6` rounds to the
exact rational `3n/5` boundary, so the comparison is modelled exactly as
`5 * just < 3 * total`. -/
def justificationOk (eqs : List Json) : Bool :=
  !(5 * (eqs.filter hasJustification).length < 3 * eqs.length)

/-- `!x || x.length < n`: the rejection test used for `result_summary`,
`analysis` and `goal`. -/
def fieldFalsyOrShort (o : Option Json) (n : Nat) : Bool :=
  match o with
  | none => true
  | some v => !jsTruthy v || lenLt v n

/-- Check 4: `result_summary` must be present and of length ≥ 60. -/
def summaryOk (it : Json) : Bool :=
  !fieldFalsyOrShort (objGet it (lit "result_summary")) 60

/-- Check 5: `analysis` must be present and of length ≥ 50. -/
def analysisOk (it : Json) : Bool :=
  !fieldFalsyOrShort (objGet it (lit "analysis")) 50

/-- Check 9: `goal` must be present and of length ≥ 20. -/
def goalOk (it : Json) : Bool :=
  !fieldFalsyOrShort (objGet it (lit "goal")) 20

/-- The equation key used by the redundancy check:
`(eq.latex || eq.text || '').trim().toLowerCase()`. -/
def normEqStr (e : Json) : List Char :=
  lcStr (trimStr (firstTruthyStr (objGet e (lit "latex")) (objGet e (lit "text"))))

/-- Check 6 (redundancy against the previous accepted iteration).  Guards as
in the source: the check only runs when a previous iteration exists, its
`equations` is a non-empty array and the candidate has at least one equation;
and each comparison only fires when both compared keys are non-empty. -/
def redundancyOk (last : Option Json) (eqs : List Json) : Bool :=
  match last with
  | none => true
  | some l =>
      match objGet l (lit "equations") with
      | some (.arr les) =>
          match les, eqs with
          | l0 :: _, e0 :: _ =>
              let lastFirst := normEqStr l0
              let thisFirst := normEqStr e0
              if !lastFirst.isEmpty && !thisFirst.isEmpty &&
                  lastFirst = thisFirst then false
              else
                let lastFinal := normEqStr (les.getLastD .null)
                if eqs.any (fun e =>
                    let q := normEqStr e
                    !q.isEmpty && !lastFinal.isEmpty && q = lastFinal) then
                  false
                else true
          | _, _ => true
      | _ => true

/-- The physics-rigor keyword set of check 7. -/
def physicsKeywords : List (List Char) :=
  [lit "boundary", lit "normalization", lit "hermit", lit "dimension",
   lit "orthogon", lit "complete", lit "eigenvalue", lit "eigenfunction",
   lit "continuity", lit "differentiab", lit "integra"]

/-- Join a list of strings with single spaces (`Array.prototype.join(' ')`). -/
def joinSp : List (List Char) → List Char
  | [] => []
  | [x] => x
  | x :: rest => x ++ ' ' :: joinSp rest

/-- The lower-cased text blob searched by check 7:
`analysis` + newline + `result_summary` + newline + all equation `text`s. -/
def physicsBlob (it : Json) (eqs : List Json) : List Char :=
  lcStr
    (jsToStr (jsOr (objGet it (lit "analysis")) (.str [])) ++
      '\n' :: jsToStr (jsOr (objGet it (lit "result_summary")) (.str [])) ++
      '\n' :: joinSp (eqs.map fun e => jsToStr (jsOr (objGet e (lit "text")) (.str []))))

/-- Check 7: at least one physics keyword must occur in the blob. -/
def physicsOk (it : Json) (eqs : List Json) : Bool :=
  physicsKeywords.any (fun kw => hasSub kw (physicsBlob it eqs))

/-- The math-token set of check 8. -/
def mathSymbols : List (List Char) :=
  [lit "=", lit "\\frac", lit "\\int", lit "\\sum", lit "\\partial",
   lit "psi", lit "\\hbar", lit "\\nabla"]

/-- `(e.latex || e.text || '')` as read (untrimmed) by check 8. -/
def eqContent (e : Json) : List Char :=
  firstTruthyStr (objGet e (lit "latex")) (objGet e (lit "text"))

/-- Does one equation contain a recognizable math token? -/
def hasMathToken (e : Json) : Bool :=
  mathSymbols.any (fun sym => hasSub sym (eqContent e))

/-- Check 8: at least 70 % of the equations contain a math token (the float
product `n * 0.7` is modelled by the exact rational, as in check 3). -/
def mathContentOk (eqs : List Json) : Bool :=
  !(10 * (eqs.filter hasMathToken).length < 7 * eqs.length)

/-- `validateIteration(it, last, detailLevel)`: the conjunction of the quality
checks, in source order.  The `detailLevel` argument is received but — apart
from log strings — never used by the source. -/
def validateIteration (it : Json) (last : Option Json)
    (detailLevel : List Char) : Bool :=
  let _ := detailLevel
  let eqs := eqsOf it
  jsTruthy it &&
    eqCountOk eqs &&
    noEmptyEq eqs &&
    justificationOk eqs &&
    summaryOk it &&
    analysisOk it &&
    redundancyOk last eqs &&
    physicsOk it eqs &&
    mathContentOk eqs &&
    goalOk it

/-! ## LaTeX token normalization (`normalizeLatexTokens`) -/

/-- Fuel-driven simultaneous scan for `s.replace(/\bword\b/g, repl)`:
left-to-right, non-overlapping, boundaries judged on the input string. -/
def replaceWordF (w r : List Char) : Nat → Option Char → List Char → List Char
  | 0, _, s => s
  | _ + 1, _, [] => []
  | fuel + 1, prev, c :: cs =>
      let prevOk := match prev with
        | none => true
        | some p => !isWordCh p
      let rest := (c :: cs).drop w.length
      let nextOk := match rest with
        | [] => true
        | n :: _ => !isWordCh n
      if prevOk && startsWith w (c :: cs) && nextOk then
        r ++ replaceWordF w r fuel (some (w.getLastD c)) rest
      else
        c :: replaceWordF w r fuel (some c) cs

/-- `s.replace(/\bword\b/g, repl)` for a non-empty word of word-characters. -/
def replaceWord (w r s : List Char) : List Char :=
  if w.isEmpty then s else replaceWordF w r s.length none s

/-- `normalizeLatexTokens`: prefix a backslash to bare macro names.  Only
non-empty strings are rewritten; everything else is returned unchanged. -/
def normalizeLatexTokens (j : Json) : Json :=
  match j with
  | .str s =>
      if s.isEmpty then j
      else
        .str (replaceWord (lit "varepsilon") (lit "\\varepsilon")
          (replaceWord (lit "infty") (lit "\\infty")
            (replaceWord (lit "xi") (lit "\\xi")
              (replaceWord (lit "hbar") (lit "\\hbar")
                (replaceWord (lit "lambda") (lit "\\lambda") s)))))
  | _ => j

/-- The per-equation normalization pass of the engine:
`{ ...e, latex: e.latex ? normalize(e.latex) : e.latex, text: … }`.
A key the equation lacks stays absent (JS would carry it with value
`undefined`, which is indistinguishable through every read the pipeline
performs); spreading a non-object yields an empty object. -/
def normEqJson (e : Json) : Json :=
  match e with
  | .obj _ =>
      let e1 :=
        match objGet e (lit "latex") with
        | some v =>
            objSet e (lit "latex") (if jsTruthy v then normalizeLatexTokens v else v)
        | none => e
      (match objGet e1 (lit "text") with
        | some v =>
            objSet e1 (lit "text") (if jsTruthy v then normalizeLatexTokens v else v)
        | none => e1)
  | _ => .obj []

/-- `if (Array.isArray(parsed.equations)) parsed.equations = …map(…)`. -/
def normalizeParsed (p : Json) : Json :=
  match objGet p (lit "equations") with
  | some (.arr xs) => objSet p (lit "equations") (.arr (xs.map normEqJson))
  | _ => p

/-! ## LaTeX escaping and the Document Builder
(`esc` and `buildLatexDocument` in the LaTeX-builder module) -/

/-- The character class of `esc`'s second replacement: `[#%&_$~^]`. -/
def isEscSpecial (c : Char) : Bool :=
  c = '#' || c = '%' || c = '&' || c = '_' || c = '$' || c = '~' || c = '^'

/-- Pass 1 of `esc`: `replace(/\\/g, '\\\\')` — double every backslash. -/
def escPassBackslash (s : List Char) : List Char :=
  s.flatMap fun c => if c = '\\' then ['\\', '\\'] else [c]

/-- Pass 2 of `esc`: `replace(/([#%&_$~^])/g, '\\$1')`. -/
def escPassSpecials (s : List Char) : List Char :=
  s.flatMap fun c => if isEscSpecial c then ['\\', c] else [c]

/-- Pass 3 of `esc`: `replace(/\{/g, '\\{')`. -/
def escPassLbrace (s : List Char) : List Char :=
  s.flatMap fun c => if c = lbrace then ['\\', lbrace] else [c]

/-- Pass 4 of `esc`: `replace(/\}/g, '\\}')`. -/
def escPassRbrace (s : List Char) : List Char :=
  s.flatMap fun c => if c = rbrace then ['\\', rbrace] else [c]

/-- `esc` on a string: backslash first, then `# % & _ $ ~ ^`, then `{`,
then `}`. -/
def escStr (s : List Char) : List Char :=
  escPassRbrace (escPassLbrace (escPassSpecials (escPassBackslash s)))

/-- `esc(s)` with the `typeof s !== 'string' → ''` guard. -/
def esc (j : Json) : List Char :=
  match j with
  | .str s => escStr s
  | _ => []

/-- The per-character escaping `esc` is proved to implement: one backslash in
front of every special character, backslashes doubled, no double-escaping. -/
def escChar (c : Char) : List Char :=
  if c = '\\' then ['\\', '\\']
  else if isEscSpecial c || c = lbrace || c = rbrace then ['\\', c]
  else [c]

/-- `section(title)` of the builder, at the string call sites it has. -/
def sectionStr (t : List Char) : List Char :=
  lit "\\section\x7b" ++ escStr t ++ lit "\x7d\n"

/-- The iteration subsections of the document body (`iterations.forEach`). -/
def iterBlocks : List Json → Nat → List Char
  | [], _ => []
  | it :: rest, idx =>
      let k := jsOr (objGet it (lit "k")) (.num (natLex (idx + 1)))
      let goal := objGet it (lit "goal")
      let analysis := objGet it (lit "analysis")
      let block :=
        lit "\\subsection\x7bIteration " ++ jsToStr k ++ lit "\x7d\n" ++
        (if optTruthy goal then
          lit "\\textbf\x7bGoal:\x7d " ++ esc (jsOr goal (.str [])) ++ lit "\\\n\n"
        else []) ++
        (if optTruthy analysis then
          esc (jsOr analysis (.str [])) ++ lit "\\\n\n"
        else []) ++
        (match objGet it (lit "equations") with
          | some (.arr eqs) =>
              if eqs.isEmpty then []
              else eqs.flatMap fun eq =>
                (if optTruthy (objGet eq (lit "latex")) then
                  lit "\\begin\x7bequation\x7d\n" ++
                    jsToStr (jsOr (objGet eq (lit "latex")) (.str [])) ++
                    lit "\n\\end\x7bequation\x7d\n"
                else []) ++
                (if optTruthy (objGet eq (lit "text")) then
                  esc (jsOr (objGet eq (lit "text")) (.str [])) ++ lit "\\\n\n"
                else [])
          | _ => []) ++
        (if optTruthy (objGet it (lit "latex")) then
          jsToStr (jsOr (objGet it (lit "latex")) (.str [])) ++ lit "\n"
        else []) ++
        (if optTruthy (objGet it (lit "result_summary")) then
          lit "\\textit\x7bSummary:\x7d " ++
            esc (jsOr (objGet it (lit "result_summary")) (.str [])) ++ lit "\\\n\n"
        else [])
      block ++ iterBlocks rest (idx + 1)

/-- `buildLatexDocument(meta, iterations, final)`: pure rendering of the run
into a complete LaTeX document string. -/
def buildLatexDocument (meta : Json) (iterations : List Json) (final : Json) :
    List Char :=
  let title := jsOr (objGet meta (lit "title"))
    (.str (lit "Iterative Solution of the Schr\\\"odinger Equation"))
  let author := jsOr (objGet meta (lit "author")) (.str (lit "AutoSolver"))
  let abstract := jsOr (objGet meta (lit "abstract")) (.str [])
  let problem := jsOr (objGet meta (lit "problem")) (.str [])
  let assumptions :=
    match objGet meta (lit "assumptions") with
    | some (.arr xs) => xs
    | _ => []
  let notations :=
    match objGet meta (lit "notation") with
    | some (.arr xs) => xs
    | _ => []
  let preamble :=
    lit "\n\\documentclass[11pt]\x7barticle\x7d\n\\usepackage\x7bamsmath, amssymb, amsthm, physics, bm\x7d\n\\usepackage\x7bmathtools\x7d\n\\usepackage\x7bgeometry\x7d\n\\usepackage[colorlinks=true,linkcolor=blue,citecolor=blue,urlcolor=blue]\x7bhyperref\x7d\n\\geometry\x7bmargin=1in\x7d\n\\title\x7b" ++
      esc title ++ lit "\x7d\n\\author\x7b" ++ esc author ++
      lit "\x7d\n\\date\x7b\\today\x7d\n\\begin\x7bdocument\x7d\n\\maketitle\n\\tableofcontents\\newpage\n"
  let abstractBlock :=
    if jsTruthy abstract then
      lit "\\begin\x7babstract\x7d\n" ++ esc abstract ++ lit "\n\\end\x7babstract\x7d\n"
    else []
  let body :=
    sectionStr (lit "Problem Statement") ++
    (if jsTruthy problem then esc problem ++ lit "\n\n" else []) ++
    (if optTruthy (objGet meta (lit "equationLatex")) then
      lit "Given: $" ++ jsToStr (jsOr (objGet meta (lit "equationLatex")) (.str [])) ++
        lit "$.\\\n\n"
    else []) ++
    (if !assumptions.isEmpty then
      sectionStr (lit "Assumptions and Approximations") ++
        (assumptions.flatMap fun a => lit "\\noindent " ++ esc a ++ lit "\\\n") ++
        lit "\n"
    else []) ++
    (if !notations.isEmpty then
      sectionStr (lit "Notation") ++
        (notations.flatMap fun n => lit "\\noindent " ++ esc n ++ lit "\\\n") ++
        lit "\n"
    else []) ++
    sectionStr (lit "Iterative Solution Procedure") ++
    iterBlocks iterations 0 ++
    sectionStr (lit "Conclusion") ++
    (if optTruthy (objGet final (lit "text")) then
      esc (jsOr (objGet final (lit "text")) (.str [])) ++ lit "\\\n\n"
    else []) ++
    (if optTruthy (objGet final (lit "main_result_latex")) then
      lit "\\begin\x7bequation\x7d\n" ++
        jsToStr (jsOr (objGet final (lit "main_result_latex")) (.str [])) ++
        lit "\n\\end\x7bequation\x7d\n"
    else [])
  preamble ++ abstractBlock ++ body ++ lit "\n\\end\x7bdocument\x7d\n"

/-! ## Resilient chat client (`callChat` in `lib/schrodinger/solver.js`)

`fetch` outcomes are supplied per attempt.  The computed backoff delays are
recorded (the `setTimeout` wait itself has no data effect). -/

/-- Outcome of one `fetch` attempt: an HTTP response (any status) with its
body text, or a rejected promise (network failure). -/
inductive FetchOutcome where
  | resp (status : Nat) (body : List Char)
  | netErr (msg : List Char)

/-- Errors captured/raised by `callChat`. -/
inductive ChatError where
  | http (msg : List Char)
  | network (msg : List Char)
  | jsonSyntax
  | generic
  deriving Inhabited

/-- `resp.ok`: status in the 2xx range. -/
def statusOk (status : Nat) : Bool := 200 ≤ status && status ≤ 299

/-- Retryable classification: `resp.status === 429 || resp.status >= 500`. -/
def statusRetryable (status : Nat) : Bool := status = 429 || 500 ≤ status

/-- The synthesized success envelope built when `callChat` repairs a truncated
model output embedded in an error body:
`{ choices: [{ message: { content } }] }`. -/
def wrapContent (content : List Char) : Json :=
  .obj [(lit "choices", .arr
    [.obj [(lit "message", .obj [(lit "content", .str content)])]])]

/-- `repaired && repaired.k`: the repaired record's `k` must be truthy. -/
def repairedKTruthy (r : Json) : Bool := optTruthy (objGet r (lit "k"))

/-- Processing of one attempt's `fetch` outcome — the body of the `try`
block: classify the status; non-retryable non-2xx bodies embedding
`error_model_output` may yield a synthesized success; otherwise the attempt
ends in a captured error. -/
def attemptResult (o : FetchOutcome) : Except ChatError Json :=
  match o with
  | .netErr m => .error (.network m)
  | .resp status body =>
      if statusRetryable status then
        .error (.http (lit "HTTP " ++ natLex status ++ ' ' :: body.take 200))
      else if !statusOk status then
        let fatal : Except ChatError Json :=
          .error (.http (lit "HTTP " ++ natLex status ++ ' ' :: body))
        if hasSub (lit "error_model_output") body then
          match jsonParse body with
          | some errorData =>
              match objGet errorData (lit "error_model_output") with
              | some (.str emo) =>
                  if jsTruthy (.str emo) then
                    match repairIncompleteJSON emo with
                    | some repaired =>
                        if repairedKTruthy repaired then
                          .ok (wrapContent (stringify repaired))
                        else fatal
                    | none => fatal
                  else fatal
              | _ => fatal
          | none => fatal
        else fatal
      else
        match jsonParse body with
        | some j => .ok j
        | none => .error .jsonSyntax

/-- Result of a `callChat` run: the value or raised error, the number of
attempts performed, and the computed backoff delays (one per failed
attempt, in order). -/
structure CallOut where
  result : Except ChatError Json
  attempts : Nat
  delays : List Nat

/-- The retry loop of `callChat`: `while (attempt <= retries)`, with the
backoff `base * 2 ** attempt + jitter(attempt)` computed after every failed
attempt (the source also waits after the final one, before raising).
Crucially, the `throw` for a non-retryable non-2xx response happens *inside*
the `try`, so its own `catch` captures it and the loop continues — fatal
errors are retried exactly like transient ones. -/
def callChatGo (responses : Nat → FetchOutcome) (jitter : Nat → Nat)
    (base : Nat) : Nat → Nat → Option ChatError → List Nat → CallOut
  | 0, attempt, lastErr, delays =>
      ⟨.error (lastErr.getD .generic), attempt, delays⟩
  | fuel + 1, attempt, _, delays =>
      match attemptResult (responses attempt) with
      | .ok v => ⟨.ok v, attempt + 1, delays⟩
      | .error e =>
          let wait := base * 2 ^ attempt + jitter attempt
          callChatGo responses jitter base fuel (attempt + 1) (some e)
            (delays ++ [wait])

/-- `callChat` with resolved numeric options (`maxRetries`, `baseDelayMs`):
`retries + 1` total attempts. -/
def callChat (responses : Nat → FetchOutcome) (retries base : Nat)
    (jitter : Nat → Nat) : CallOut :=
  callChatGo responses jitter base (retries + 1) 0 none []

/-! ## Iteration engine (`solveSchrodingerIterative`)

Chat interactions are modelled as oracles indexed by the round number; the
local processing of each response (`choices[0].message.content` extraction,
JSON extraction/repair, validation, revision, normalization, `k` assignment,
stop flag, document rendering) is translated from the source.  An `.error`
oracle outcome models the corresponding `callChat` invocation exhausting its
retries and throwing. -/

/-- `data.choices?.[0]?.message?.content || ''` (the string case; a truthy
non-string `content` would crash the original extractor downstream and is
not modelled). -/
def getContent (data : Json) : List Char :=
  match objGet data (lit "choices") with
  | some (.arr (c0 :: _)) =>
      match objGet c0 (lit "message") with
      | some msg =>
          match objGet msg (lit "content") with
          | some (.str s) => if jsTruthy (.str s) then s else []
          | _ => []
      | none => []
  | _ => []

/-- Outcome of the Planner's single `fetch`. -/
inductive PlanFetch where
  | throwErr
  | notOk
  | ok (data : Json)

/-- Per-round (and one-shot) chat oracles for one engine run. -/
structure Env where
  /-- Response of the main chat call of round `k`. -/
  chat : Nat → Except ChatError Json
  /-- Response of the network JSON-repair call of round `k`
  (`tryRepairJSON`), consulted only when local extraction fails. -/
  repairChat : Nat → Except ChatError Json
  /-- Response of the Reviser call of round `k` (`reviseIteration`),
  consulted only when validation fails. -/
  reviseChat : Nat → Except ChatError Json
  /-- Response of the one appendix-synthesis call. -/
  synthChat : Except ChatError Json
  /-- Outcome of the Planner's `fetch` (`planSchrodingerSolution`). -/
  planFetch : PlanFetch

/-- `planSchrodingerSolution`: non-2xx and parse failures degrade to an empty
plan; a rejected `fetch` propagates as an exception (absorbed by the engine's
`try`/`catch`). -/
def planSchrodingerSolution (pf : PlanFetch) : Except Unit Json :=
  match pf with
  | .throwErr => .error ()
  | .notOk => .ok (.obj [(lit "plan", .arr []), (lit "notes", .str [])])
  | .ok data =>
      .ok (match jsonParse (getContent data) with
        | some j => j
        | none => .obj [(lit "plan", .arr []), (lit "notes", .str [])])

/-- `tryRepairJSON`: one chat call, then local extraction of its content. -/
def tryRepairJSON (response : Except ChatError Json) :
    Except ChatError (Option Json) :=
  response.map fun data => extractJSON (getContent data)

/-- `reviseIteration`: one chat call, then local extraction of its content. -/
def reviseIteration (response : Except ChatError Json) :
    Except ChatError (Option Json) :=
  response.map fun data => extractJSON (getContent data)

/-- `synthesizeAppendix`: one chat call; `JSON.parse` of the content with
`catch { return {} }`. -/
def synthesizeAppendix (response : Except ChatError Json) :
    Except ChatError Json :=
  response.map fun data =>
    match jsonParse (getContent data) with
    | some j => j
    | none => .obj []

/-- Model-name sniffing for "small" models. -/
def isSmallModel (model : List Char) : Bool :=
  hasSub (lit "ALLaM") model || hasSub (lit "7B") model || hasSub (lit "8B") model

/-- One run's accepted iterations together with the rounds in which the
Reviser was invoked (instrumentation used to state that failed validation
triggers exactly one revision attempt per round). -/
structure LoopOut where
  iterations : List Json
  reviseRounds : List Nat

/-- The per-round loop of `solveSchrodingerIterative`
(`for (let k = 1; k <= totalLoops && !stop; k++)`). Rounds that cannot
produce a valid iteration `break` — returning what was accepted so far —
while a chat call that exhausts its retries propagates its error. -/
def runLoop (env : Env) (detailLevel : List Char) :
    Nat → Nat → List Json → List Nat → Except ChatError LoopOut
  | 0, _, acc, revs => .ok ⟨acc, revs⟩
  | fuel + 1, k, acc, revs =>
      match env.chat k with
      | .error e => .error e
      | .ok data =>
          let content := getContent data
          let parsedStep : Except ChatError (Option Json) :=
            match extractJSON content with
            | some p => .ok (some p)
            | none => tryRepairJSON (env.repairChat k)
          match parsedStep with
          | .error e => .error e
          | .ok none => .ok ⟨acc, revs⟩
          | .ok (some p0) =>
              let last := acc.getLast?
              let chosen : Except ChatError (Option Json × List Nat) :=
                if validateIteration p0 last detailLevel then .ok (some p0, revs)
                else
                  match reviseIteration (env.reviseChat k) with
                  | .error e => .error e
                  | .ok (some r) =>
                      if validateIteration r last detailLevel then
                        .ok (some r, revs ++ [k])
                      else .ok (none, revs ++ [k])
                  | .ok none => .ok (none, revs ++ [k])
              match chosen with
              | .error e => .error e
              | .ok (none, revs') => .ok ⟨acc, revs'⟩
              | .ok (some p1, revs') =>
                  let p2 := normalizeParsed p1
                  let stored := objSet p2 (lit "k") (.num (natLex k))
                  let acc' := acc ++ [stored]
                  match objGet p2 (lit "stop") with
                  | some (.bool true) => .ok ⟨acc', revs'⟩
                  | _ => runLoop env detailLevel fuel (k + 1) acc' revs'

/-- `detailLevel === 'exhaustive' ? Math.max(maxIterations, 8) :
maxIterations`. -/
def effectiveMaxIterations (maxIterations : Nat) (detailLevel : List Char) :
    Nat :=
  if detailLevel = lit "exhaustive" then max maxIterations 8 else maxIterations

/-- The run metadata assembled by the engine before rendering. -/
def metaOf (context : Json) : Json :=
  .obj
    [ (lit "title",
        .str (lit "Iterative Analytical Solution of the Schr\\\"odinger Equation"))
    , (lit "author", .str (lit "AutoSolver"))
    , (lit "abstract",
        .str (lit "An iterative, expert-level derivation using physically justified approximations and checks for consistency, normalization, and boundary conditions."))
    , (lit "problem", jsOr (objGet context (lit "problem")) (.str []))
    , (lit "equationLatex", jsOr (objGet context (lit "equationLatex")) (.str []))
    , (lit "assumptions", jsOr (objGet context (lit "assumptions")) (.arr []))
    , (lit "notation", jsOr (objGet context (lit "notation")) (.arr [])) ]

/-- The closing text of the Conclusion section. -/
def conclusionText : List Char :=
  lit "We have constructed the solution iteratively, with stated assumptions and regimes of validity. The final expression summarizes the solved wavefunction/energies under the specified conditions."

/-- Result of a full run. -/
structure SolveResult where
  iterations : List Json
  latex : List Char
  mainResultLatex : Json
  appendixFlag : Bool
  reviseRounds : List Nat

/-- The plan used by the run (`strategy === 'planner'` with `try`/`catch`
absorbing planner failures into an empty plan). -/
def planOf (pf : PlanFetch) (strategy : List Char) : List Json :=
  if strategy = lit "planner" then
    match planSchrodingerSolution pf with
    | .error _ => []
    | .ok planOut =>
        match objGet planOut (lit "plan") with
        | some (.arr xs) => xs
        | _ => []
  else []

/-- `totalLoops`: plan-bounded when a planner plan exists, else the effective
maximum iteration count. -/
def totalLoopsOf (pf : PlanFetch) (strategy : List Char) (maxIterations : Nat)
    (detailLevel : List Char) : Nat :=
  let plan := planOf pf strategy
  let effMax := effectiveMaxIterations maxIterations detailLevel
  if strategy = lit "planner" && !plan.isEmpty then
    min plan.length effMax
  else effMax

/-- Assembly of the final result after the loop: `main_result_latex` from the
final accepted iteration, optional appendix synthesis (skipped for small
models, empty iteration lists and low detail levels), document rendering. -/
def finishRun (env : Env) (model : List Char) (context : Json)
    (detailLevel : List Char) (lp : LoopOut) : Except ChatError SolveResult :=
  let iterations := lp.iterations
  let finalStep := (iterations.getLast?).getD (.obj [])
  let mainLatex0 := jsOr (objGet finalStep (lit "main_result_latex")) (.str [])
  let small := isSmallModel model
  let synthStep : Except ChatError (Json × Json) :=
    if !small && !iterations.isEmpty &&
        (detailLevel = lit "exhaustive" || detailLevel = lit "standard") then
      match synthesizeAppendix env.synthChat with
      | .error e => .error e
      | .ok syn =>
          let app := jsOr (objGet syn (lit "appendixLatex")) (.str [])
          let ml :=
            if !jsTruthy mainLatex0 &&
                optTruthy (objGet syn (lit "main_result_latex")) then
              jsOr (objGet syn (lit "main_result_latex")) (.str [])
            else mainLatex0
          .ok (app, ml)
    else .ok ((Json.str []), mainLatex0)
  match synthStep with
  | .error e => .error e
  | .ok (appendixLatex, mainLatex) =>
      let final : Json :=
        .obj [ (lit "text", .str conclusionText)
             , (lit "main_result_latex", mainLatex)
             , (lit "appendixLatex", appendixLatex) ]
      .ok
        { iterations := iterations
        , latex := buildLatexDocument (metaOf context) iterations final
        , mainResultLatex := mainLatex
        , appendixFlag := jsTruthy appendixLatex
        , reviseRounds := lp.reviseRounds }

/-- `solveSchrodingerIterative` (with the provider configuration resolved to
the `model` name, the only part of it the engine's own control flow reads). -/
def solveSchrodingerIterative (env : Env) (model : List Char)
    (context : Json) (maxIterations : Nat) (detailLevel strategy : List Char) :
    Except ChatError SolveResult :=
  let totalLoops := totalLoopsOf env.planFetch strategy maxIterations detailLevel
  match runLoop env detailLevel totalLoops 1 [] [] with
  | .error e => .error e
  | .ok lp => finishRun env model context detailLevel lp

/-! ## Claim C9 — LaTeX escaping -/

/-- Each escaping pass distributes over list append. -/
lemma escStr_append (a b : List Char) :
    escStr (a ++ b) = escStr a ++ escStr b := by
  simp [escStr, escPassBackslash, escPassSpecials, escPassLbrace, escPassRbrace,
    List.flatMap_append]

/-- `esc` acts on a single character exactly as `escChar`. -/
lemma escStr_single (c : Char) : escStr [c] = escChar c := by
  by_cases hb : c = '\\'
  · subst hb; rfl
  · by_cases hs : isEscSpecial c = true
    · simp only [isEscSpecial, Bool.or_eq_true, decide_eq_true_eq] at hs
      rcases hs with ((((((rfl | rfl) | rfl) | rfl) | rfl) | rfl) | rfl) <;>
        decide
    · by_cases hl : c = lbrace
      · subst hl; decide
      · by_cases hr : c = rbrace
        · subst hr; decide
        · simp [escStr, escPassBackslash, escPassSpecials, escPassLbrace,
            escPassRbrace, escChar, hb, hs, hl, hr]

/-- The four sequential replacement passes of `esc` amount to one independent
per-character escape: every original character is escaped exactly once. -/
lemma escStr_eq_flatMap (s : List Char) : escStr s = s.flatMap escChar := by
  induction s with
  | nil => rfl
  | cons c cs ih =>
      have h : escStr (c :: cs) = escStr [c] ++ escStr cs := by
        simpa using escStr_append [c] cs
      rw [h, escStr_single, ih, List.flatMap_cons]

/-- C9.  The LaTeX escaping function `esc` escapes backslash first and then
each of `# % & _ $ ~ ^ { }`, so that no character is double-escaped: the four
sequential global replacements are equal to a single independent
per-character escape (`escChar`, which puts exactly one backslash in front of
each special character and doubles each original backslash).  In particular
escaping `"100% A&B_C"` yields exactly `100\% A\&B\_C`, which therefore
occurs in the escaped output. -/
theorem c9_esc_escapes_backslash_first :
    (∀ s : List Char, escStr s = s.flatMap escChar) ∧
      escStr (lit "100% A&B_C") = lit "100\\% A\\&B\\_C" ∧
      hasSub (lit "100\\% A\\&B\\_C") (escStr (lit "100% A&B_C")) = true :=
  ⟨escStr_eq_flatMap, by decide, by decide⟩

/-! ## Claim C4 — Validator equation-count gate -/

/-- Helper: a well-formed test equation. -/
def mkTestEq (l t : List Char) : Json :=
  .obj [(lit "latex", .str l), (lit "text", .str t)]

/-- A candidate iteration with exactly `minEquations` (= 5) equations and all
other validation criteria satisfied. -/
def c4GoodIt : Json :=
  .obj
    [ (lit "k", .num ['1'])
    , (lit "goal", .str (lit "Set up the eigenvalue problem"))
    , (lit "analysis",
        .str (lit "We analyze the boundary conditions of the problem in detail"))
    , (lit "equations", .arr
        [ mkTestEq (lit "a1=1") (lit "first step justified")
        , mkTestEq (lit "a2=2") (lit "second step justified")
        , mkTestEq (lit "a3=3") (lit "third step justified")
        , mkTestEq (lit "a4=4") (lit "fourth step justified")
        , mkTestEq (lit "a5=5") (lit "fifth step justified") ])
    , (lit "result_summary",
        .str (lit "We established the base equations and verified the boundary conditions fully")) ]

/-- The same iteration with only 4 equations (below the minimum). -/
def c4BadIt : Json :=
  objSet c4GoodIt (lit "equations") (.arr
    [ mkTestEq (lit "a1=1") (lit "first step justified")
    , mkTestEq (lit "a2=2") (lit "second step justified")
    , mkTestEq (lit "a3=3") (lit "third step justified")
    , mkTestEq (lit "a4=4") (lit "fourth step justified") ])

/-- C4, counterexample.  The claim asserts that the minimum-equation-count
threshold is stricter for `"exhaustive"` than for `"standard"`/`"basic"`.
The validator in fact applies the constant minimum 5 regardless of detail
level: a 5-equation iteration (all other criteria satisfied) is accepted and a
4-equation one rejected under *every* detail level.  These four evaluations
refute any pair of thresholds with `min("exhaustive") > min("basic")`: such a
pair would reject the 5-equation iteration under `"exhaustive"` or accept the
4-equation one under `"basic"`. -/
theorem c4_counterexample :
    validateIteration c4GoodIt none (lit "exhaustive") = true ∧
      validateIteration c4GoodIt none (lit "basic") = true ∧
      validateIteration c4GoodIt none (lit "standard") = true ∧
      validateIteration c4BadIt none (lit "exhaustive") = false ∧
      validateIteration c4BadIt none (lit "basic") = false ∧
      validateIteration c4BadIt none (lit "standard") = false :=
  ⟨by decide, by decide, by decide, by decide, by decide, by decide⟩

/-- C4, amended.  The Validator rejects any iteration whose equation count is
below the configured minimum (`minEquations = 5`) regardless of all other
fields; the minimum does **not** scale with the detail level — the validator's
verdict is entirely independent of the `detailLevel` argument — and an
iteration at the minimum with all other criteria satisfied is accepted. -/
theorem c4_equation_count_gate :
    (∀ (it : Json) (last : Option Json) (dl : List Char),
        (eqsOf it).length < minEquations →
          validateIteration it last dl = false) ∧
      (∀ (it : Json) (last : Option Json) (dl dl' : List Char),
        validateIteration it last dl = validateIteration it last dl') ∧
      validateIteration c4GoodIt none (lit "exhaustive") = true := by
  refine ⟨?_, ?_, by decide⟩
  · intro it last dl h
    simp [validateIteration, eqCountOk, h]
  · intro it last dl dl'
    rfl

/-- C4, witness for the amended theorem: the 4-equation iteration is below
the minimum and is rejected. -/
theorem c4_equation_count_gate_witness :
    validateIteration c4BadIt none (lit "exhaustive") = false :=
  c4_equation_count_gate.1 c4BadIt none (lit "exhaustive") (by decide)

/-! ## Claim C6 — truncation repair on the spec's example input -/

/-- The claim's example: a JSON object string truncated inside an open string
value, inside an object, inside an array:
`{"k":1,"goal":"g","equations":[{"latex":"a","text":"b`. -/
def c6Input : List Char :=
  lit "\x7b\"k\":1,\"goal\":\"g\",\"equations\":[\x7b\"latex\":\"a\",\"text\":\"b"

/-- What the repair's closing order actually produces on the example: the
open string is closed first, then the one open array, then both open objects —
`…"text":"b"]}}` — which closes the inner *object* with a *bracket*. -/
def c6Repaired : List Char :=
  lit "\x7b\"k\":1,\"goal\":\"g\",\"equations\":[\x7b\"latex\":\"a\",\"text\":\"b\"]\x7d\x7d"

/-- C6, counterexample.  The claim asserts that on `c6Input` the extractor
returns a record whose `goal` equals `"g"`.  In fact the string-then-arrays-
then-objects closing order mismatches the nesting (an object is open inside
the array), the repaired candidate does not parse, and the extractor falls
back to the minimal record: its `k` is 1 (regex-recovered), but its `goal` is
the placeholder `"Continue derivation (recovered from truncated output)"`,
not `"g"`. -/
theorem c6_counterexample :
    extractJSON c6Input = some (fallbackRecord c6Input) ∧
      objGet (fallbackRecord c6Input) (lit "goal") = some (.str fallbackGoal) ∧
      fallbackGoal ≠ lit "g" :=
  ⟨rfl, rfl, by decide⟩

/-- C6, amended.  Truncation repair does close a currently-open quoted string
first, then all open arrays, then all open objects, in that order, before
re-parsing — but for the example input this closing order does not match the
actual nesting, so the re-parse fails and the extractor returns the minimal
fallback record: its `k` field equals 1 (recovered by the `"k"` regex), while
its `goal` field is the truncation placeholder rather than `"g"`. -/
theorem c6_truncation_repair :
    (∀ st : RepairScan, repairClosers st =
      (if st.inString then ['"'] else []) ++
        List.replicate st.bracketDepth.toNat ']' ++
        List.replicate st.braceDepth.toNat rbrace) ∧
      repairCandidate c6Input = c6Repaired ∧
      jsonParse c6Repaired = none ∧
      extractJSON c6Input = some (fallbackRecord c6Input) ∧
      objGet (fallbackRecord c6Input) (lit "k") = some (.num ['1']) ∧
      objGet (fallbackRecord c6Input) (lit "goal") = some (.str fallbackGoal) :=
  ⟨fun _ => rfl, rfl, rfl, rfl, rfl, rfl⟩

/-! ## Claim C7 — redundancy check against the previous iteration -/

/-- A previous accepted-quality iteration whose first equation's comparison
key normalizes to the empty string (`latex` is a single space, which is truthy
but trims to nothing). -/
def c7Prev : Json :=
  .obj
    [ (lit "k", .num ['1'])
    , (lit "goal", .str (lit "Set up the eigenvalue problem"))
    , (lit "analysis",
        .str (lit "We analyze the boundary conditions of the problem in detail"))
    , (lit "equations", .arr
        [ mkTestEq (lit " ") (lit "first step justified here")
        , mkTestEq (lit "p2=2") (lit "second step justified")
        , mkTestEq (lit "p3=3") (lit "third step justified")
        , mkTestEq (lit "p4=4") (lit "fourth step justified")
        , mkTestEq (lit "p5=5") (lit "fifth step justified") ])
    , (lit "result_summary",
        .str (lit "We established the base equations and verified the boundary conditions fully")) ]

/-- A candidate whose first equation has the same (empty-normalizing)
comparison key as `c7Prev`'s first equation. -/
def c7Cand : Json :=
  objSet c7Prev (lit "equations") (.arr
    [ mkTestEq (lit " ") (lit "first step justified here")
    , mkTestEq (lit "c2=2") (lit "second step justified")
    , mkTestEq (lit "c3=3") (lit "third step justified")
    , mkTestEq (lit "c4=4") (lit "fourth step justified")
    , mkTestEq (lit "c5=5") (lit "fifth step justified") ])

/-- C7, counterexample.  The previous iteration has a non-empty equation list
and the candidate's first equation exactly matches the previous iteration's
first equation under the claim's normalization (lower-cased, trimmed, `latex`
falling back to `text`) — yet the Validator accepts the candidate: the
source's truthiness guards skip any comparison in which a normalized key is
the empty string. -/
theorem c7_counterexample :
    validateIteration c7Cand (some c7Prev) (lit "exhaustive") = true ∧
      eqsOf c7Prev ≠ [] ∧
      normEqStr ((eqsOf c7Cand).headD .null) =
        normEqStr ((eqsOf c7Prev).headD .null) :=
  ⟨by decide,
    fun h => absurd (congrArg List.length h) (by decide),
    by decide⟩

/-- C7, amended.  The Validator enforces the redundancy check (an accepted
iteration always passes it), and — given a previous iteration with a
non-empty equation list and a non-empty candidate equation list — the check
fails exactly when the candidate's first equation matches the previous
iteration's first equation, or some candidate equation matches the previous
iteration's last equation, **with both compared keys non-empty after
normalization**; comparisons in which either normalized key is empty are
skipped. -/
theorem c7_redundancy_check :
    (∀ (it : Json) (last : Option Json) (dl : List Char),
        validateIteration it last dl = true →
          redundancyOk last (eqsOf it) = true) ∧
      (∀ (l l0 : Json) (ls : List Json) (e0 : Json) (es : List Json),
        objGet l (lit "equations") = some (.arr (l0 :: ls)) →
          (redundancyOk (some l) (e0 :: es) = false ↔
            ((normEqStr l0 ≠ [] ∧ normEqStr e0 ≠ [] ∧
                normEqStr l0 = normEqStr e0) ∨
              ∃ e ∈ e0 :: es,
                normEqStr e ≠ [] ∧
                  normEqStr ((l0 :: ls).getLastD .null) ≠ [] ∧
                  normEqStr e = normEqStr ((l0 :: ls).getLastD .null)))) := by
  constructor
  · intro it last dl h
    simp only [validateIteration, Bool.and_eq_true] at h
    exact h.1.1.1.2
  · intro l l0 ls e0 es hles
    simp only [redundancyOk, hles]
    constructor
    · intro h
      by_cases h1 : (!(normEqStr l0).isEmpty && !(normEqStr e0).isEmpty &&
          decide (normEqStr l0 = normEqStr e0)) = true
      · left
        simp only [Bool.and_eq_true, Bool.not_eq_true', List.isEmpty_eq_false,
          decide_eq_true_eq] at h1
        exact ⟨h1.1.1, h1.1.2, h1.2⟩
      · rw [if_neg h1] at h
        by_cases h2 : ((e0 :: es).any fun e =>
            !(normEqStr e).isEmpty &&
              !(normEqStr ((l0 :: ls).getLastD .null)).isEmpty &&
              decide (normEqStr e = normEqStr ((l0 :: ls).getLastD .null))) = true
        · right
          simp only [List.any_eq_true, Bool.and_eq_true, Bool.not_eq_true',
            List.isEmpty_eq_false, decide_eq_true_eq] at h2
          obtain ⟨e, he, ⟨hq, hl⟩, heq⟩ := h2
          exact ⟨e, he, hq, hl, heq⟩
        · rw [if_neg h2] at h
          exact absurd h (by simp)
    · intro h
      rcases h with ⟨h1, h2, h3⟩ | ⟨e, he, hq, hl, heq⟩
      · rw [if_pos]
        simp only [Bool.and_eq_true, Bool.not_eq_true', List.isEmpty_eq_false,
          decide_eq_true_eq]
        exact ⟨⟨h1, h2⟩, h3⟩
      · by_cases h1 : (!(normEqStr l0).isEmpty && !(normEqStr e0).isEmpty &&
            decide (normEqStr l0 = normEqStr e0)) = true
        · rw [if_pos h1]
        · rw [if_neg h1, if_pos]
          simp only [List.any_eq_true, Bool.and_eq_true, Bool.not_eq_true',
            List.isEmpty_eq_false, decide_eq_true_eq]
          exact ⟨e, he, ⟨hq, hl⟩, heq⟩

/-- C7, witness for the amended theorem: a candidate repeating the previous
first equation (both keys non-empty) fails the redundancy check, and an
accepted candidate always passes it. -/
theorem c7_redundancy_check_witness :
    redundancyOk (some c4GoodIt) (eqsOf c4GoodIt) = false ∧
      redundancyOk (some c7Prev) (eqsOf c7Cand) = true := by
  constructor
  · exact (c7_redundancy_check.2 c4GoodIt
      (mkTestEq (lit "a1=1") (lit "first step justified"))
      [ mkTestEq (lit "a2=2") (lit "second step justified")
      , mkTestEq (lit "a3=3") (lit "third step justified")
      , mkTestEq (lit "a4=4") (lit "fourth step justified")
      , mkTestEq (lit "a5=5") (lit "fifth step justified") ]
      (mkTestEq (lit "a1=1") (lit "first step justified"))
      [ mkTestEq (lit "a2=2") (lit "second step justified")
      , mkTestEq (lit "a3=3") (lit "third step justified")
      , mkTestEq (lit "a4=4") (lit "fourth step justified")
      , mkTestEq (lit "a5=5") (lit "fifth step justified") ]
      rfl).mpr (Or.inl ⟨by decide, by decide, rfl⟩)
  · exact c7_redundancy_check.1 c7Cand (some c7Prev) (lit "exhaustive")
      (by decide)

/-! ## Claims C1, C8, C10 — the resilient chat client -/

/-- A non-retryable, non-2xx response whose body does not embed
`error_model_output` ends its attempt with the captured fatal error carrying
the full body. -/
lemma attemptResult_fatal (st : Nat) (bd : List Char)
    (h1 : statusRetryable st = false) (h2 : statusOk st = false)
    (h3 : hasSub (lit "error_model_output") bd = false) :
    attemptResult (.resp st bd) =
      .error (.http (lit "HTTP " ++ natLex st ++ ' ' :: bd)) := by
  simp [attemptResult, h1, h2, h3]

/-- When every attempt in the window fails, the retry loop performs all of
them, records one backoff delay per attempt, and ends with the error captured
on the last attempt. -/
lemma callChatGo_allFail (responses : Nat → FetchOutcome) (jitter : Nat → Nat)
    (base : Nat) (e : Nat → ChatError) :
    ∀ (fuel attempt : Nat) (lastErr : Option ChatError) (delays : List Nat),
      (∀ i, attempt ≤ i → i < attempt + fuel + 1 →
        attemptResult (responses i) = .error (e i)) →
      callChatGo responses jitter base (fuel + 1) attempt lastErr delays =
        ⟨.error (e (attempt + fuel)), attempt + fuel + 1,
          delays ++ (List.range' attempt (fuel + 1)).map
            (fun i => base * 2 ^ i + jitter i)⟩ := by
  intro fuel
  induction fuel with
  | zero =>
      intro attempt lastErr delays h
      have ha := h attempt (le_refl _) (by omega)
      simp [callChatGo, ha, List.range'_succ]
  | succ fuel ih =>
      intro attempt lastErr delays h
      have ha := h attempt (le_refl _) (by omega)
      have step : callChatGo responses jitter base (fuel + 1 + 1) attempt
          lastErr delays =
          callChatGo responses jitter base (fuel + 1) (attempt + 1)
            (some (e attempt))
            (delays ++ [base * 2 ^ attempt + jitter attempt]) := by
        simp [callChatGo, ha]
      rw [step, ih (attempt + 1) (some (e attempt)) _
        (fun i h1 h2 => h i (by omega) (by omega))]
      have h1 : attempt + 1 + fuel = attempt + (fuel + 1) := by omega
      simp [h1, List.range'_succ, List.append_assoc]

/-- C1, counterexample.  With every attempt answered by HTTP 400 (a fatal
status per the claim) and `maxRetries = 3`, `callChat` does *not* raise after
the first attempt: the fatal `throw` sits inside the loop's `try`, is caught
by its own `catch`, and the call is retried — 4 attempts are performed with
backoff delays between them, and the error (with the full body attached) is
raised only after the last one. -/
theorem c1_counterexample :
    callChat (fun _ => .resp 400 (lit "bad request")) 3 500 (fun _ => 0) =
        ⟨.error (.http (lit "HTTP 400 bad request")), 4,
          [500, 1000, 2000, 4000]⟩ ∧
      ((callChat (fun _ => .resp 400 (lit "bad request")) 3 500
          (fun _ => 0)).attempts = 1 → False) :=
  ⟨rfl, by intro h; rw [show (callChat (fun _ => .resp 400 (lit "bad request"))
    3 500 (fun _ => 0)).attempts = 4 from rfl] at h; exact absurd h (by decide)⟩

/-- C1, amended.  For a chat-completion call in which every attempt receives a
non-2xx status other than 429 and below 500 (and no repairable
`error_model_output` body), the error is captured with the full response body
attached, but the call is **not** aborted: the attempt is retried with backoff
like a transient failure, all `maxRetries + 1` attempts are performed, and the
last captured error (with its response body) is raised only after the final
attempt. -/
theorem c1_fatal_errors_are_retried (responses : Nat → FetchOutcome)
    (retries base : Nat) (jitter : Nat → Nat) (st : Nat → Nat)
    (bd : Nat → List Char)
    (hresp : ∀ i, i ≤ retries → responses i = .resp (st i) (bd i))
    (hst : ∀ i, i ≤ retries →
      statusRetryable (st i) = false ∧ statusOk (st i) = false)
    (hemo : ∀ i, i ≤ retries →
      hasSub (lit "error_model_output") (bd i) = false) :
    callChat responses retries base jitter =
      ⟨.error (.http (lit "HTTP " ++ natLex (st retries) ++ ' ' :: bd retries)),
        retries + 1,
        (List.range' 0 (retries + 1)).map (fun i => base * 2 ^ i + jitter i)⟩ := by
  have h : ∀ i, 0 ≤ i → i < 0 + retries + 1 →
      attemptResult (responses i) =
        .error (.http (lit "HTTP " ++ natLex (st i) ++ ' ' :: bd i)) := by
    intro i _ hi
    rw [hresp i (by omega)]
    exact attemptResult_fatal (st i) (bd i) (hst i (by omega)).1
      (hst i (by omega)).2 (hemo i (by omega))
  have := callChatGo_allFail responses jitter base
    (fun i => .http (lit "HTTP " ++ natLex (st i) ++ ' ' :: bd i))
    retries 0 none [] h
  simpa [callChat] using this

/-- C1, witness for the amended theorem: the concrete all-400 run performs all
4 attempts and raises the last captured error. -/
theorem c1_fatal_errors_are_retried_witness :
    callChat (fun _ => .resp 400 (lit "bad")) 3 500 (fun _ => 9) =
      ⟨.error (.http (lit "HTTP 400 bad")), 4,
        (List.range' 0 4).map (fun i => 500 * 2 ^ i + 9)⟩ :=
  c1_fatal_errors_are_retried (fun _ => .resp 400 (lit "bad")) 3 500
    (fun _ => 9) (fun _ => 400) (fun _ => lit "bad")
    (fun _ _ => rfl) (fun _ _ => ⟨rfl, rfl⟩) (fun _ _ => rfl)

/-- Every run of the retry loop: one recorded backoff delay per failed
attempt (failed attempts form a prefix `attempt, attempt+1, …`), and either
all fuel is consumed ending in an error, or a later attempt succeeds. -/
lemma callChatGo_shape (responses : Nat → FetchOutcome) (jitter : Nat → Nat)
    (base : Nat) :
    ∀ (fuel attempt : Nat) (lastErr : Option ChatError) (delays : List Nat),
      ∃ m,
        (callChatGo responses jitter base fuel attempt lastErr delays).delays =
          delays ++ (List.range' attempt m).map (fun i => base * 2 ^ i + jitter i) ∧
        ((m = fuel ∧
            (callChatGo responses jitter base fuel attempt lastErr delays).attempts =
              attempt + fuel ∧
            ∃ err, (callChatGo responses jitter base fuel attempt lastErr
              delays).result = .error err) ∨
          (m < fuel ∧
            (callChatGo responses jitter base fuel attempt lastErr delays).attempts =
              attempt + m + 1 ∧
            ∃ v, (callChatGo responses jitter base fuel attempt lastErr
              delays).result = .ok v)) := by
  intro fuel
  induction fuel with
  | zero =>
      intro attempt lastErr delays
      exact ⟨0, by simp [callChatGo], Or.inl ⟨rfl, by simp [callChatGo],
        (lastErr.getD .generic), by simp [callChatGo]⟩⟩
  | succ fuel ih =>
      intro attempt lastErr delays
      cases ha : attemptResult (responses attempt) with
      | ok v =>
          refine ⟨0, ?_, Or.inr ⟨by omega, ?_, v, ?_⟩⟩ <;>
            simp [callChatGo, ha]
      | error e =>
          obtain ⟨m, hdelays, hcase⟩ := ih (attempt + 1) (some e)
            (delays ++ [base * 2 ^ attempt + jitter attempt])
          have step : callChatGo responses jitter base (fuel + 1) attempt
              lastErr delays =
              callChatGo responses jitter base fuel (attempt + 1) (some e)
                (delays ++ [base * 2 ^ attempt + jitter attempt]) := by
            simp [callChatGo, ha]
          refine ⟨m + 1, ?_, ?_⟩
          · rw [step, hdelays, List.range'_succ]
            simp
          · rcases hcase with ⟨h1, h2, err, h3⟩ | ⟨h1, h2, v, h3⟩
            · exact Or.inl ⟨by omega, by rw [step, h2]; omega, err, by
                rw [step, h3]⟩
            · exact Or.inr ⟨by omega, by rw [step, h2]; omega, v, by
                rw [step, h3]⟩

/-- C8.  Attempts run while `attempt ≤ maxRetries` (`maxRetries + 1` total
attempts when no attempt succeeds, never more in any run), and the backoff
delay computed after failed attempt `i` (0-indexed) equals
`baseDelay * 2 ^ i + jitter i` with the jitter in `[0, 100)`; ignoring
jitter, consecutive delays satisfy `delay (i+1) = 2 * delay i ≥ 2 * delay i`. -/
theorem c8_backoff_monotonic (responses : Nat → FetchOutcome)
    (retries base : Nat) (jitter : Nat → Nat) (hj : ∀ i, jitter i < 100) :
    (callChat responses retries base jitter).delays =
        (List.range (callChat responses retries base jitter).delays.length).map
          (fun i => base * 2 ^ i + jitter i) ∧
      (callChat responses retries base jitter).attempts ≤ retries + 1 ∧
      (∀ err, (callChat responses retries base jitter).result = .error err →
        (callChat responses retries base jitter).attempts = retries + 1) ∧
      (∀ i, base * 2 ^ i ≤ base * 2 ^ i + jitter i ∧
        base * 2 ^ i + jitter i < base * 2 ^ i + 100) ∧
      (∀ i, base * 2 ^ (i + 1) = 2 * (base * 2 ^ i)) := by
  obtain ⟨m, hdelays, hcase⟩ :=
    callChatGo_shape responses jitter base (retries + 1) 0 none []
  have hrange : List.range' 0 m = List.range m := (List.range_eq_range' m).symm
  refine ⟨?_, ?_, ?_, ?_, ?_⟩
  · rw [show callChat responses retries base jitter =
      callChatGo responses jitter base (retries + 1) 0 none [] from rfl]
    rw [hdelays]
    simp [hrange]
  · rw [show callChat responses retries base jitter =
      callChatGo responses jitter base (retries + 1) 0 none [] from rfl]
    rcases hcase with ⟨_, h2, _⟩ | ⟨h1, h2, _⟩ <;> omega
  · intro err herr
    rw [show callChat responses retries base jitter =
      callChatGo responses jitter base (retries + 1) 0 none [] from rfl] at herr ⊢
    rcases hcase with ⟨h1, h2, _⟩ | ⟨_, _, v, h3⟩
    · omega
    · rw [h3] at herr; cases herr
  · intro i
    exact ⟨Nat.le_add_right _ _, by have := hj i; omega⟩
  · intro i
    rw [pow_succ]
    ring

/-- C8, witness: a concrete all-5xx run records the exact doubling delays. -/
theorem c8_backoff_monotonic_witness :
    (callChat (fun _ => .resp 503 (lit "busy")) 2 100 (fun _ => 7)).delays =
        (List.range (callChat (fun _ => .resp 503 (lit "busy")) 2 100
          (fun _ => 7)).delays.length).map (fun i => 100 * 2 ^ i + 7) ∧
      (callChat (fun _ => .resp 503 (lit "busy")) 2 100 (fun _ => 7)).attempts ≤ 3 :=
  ⟨(c8_backoff_monotonic (fun _ => .resp 503 (lit "busy")) 2 100 (fun _ => 7)
      (fun _ => by show (7 : Nat) < 100; decide)).1,
    (c8_backoff_monotonic (fun _ => .resp 503 (lit "busy")) 2 100 (fun _ => 7)
      (fun _ => by show (7 : Nat) < 100; decide)).2.1⟩

/-- The synthesized envelope wraps its content exactly at
`choices[0].message.content`. -/
lemma getContent_wrapContent (c : List Char) :
    getContent (wrapContent c) = c := by
  cases c <;> rfl

/-- C10.  When an attempt receives a non-retryable non-2xx response whose body
contains `error_model_output`, parses as JSON with a truthy string in that
field, and the embedded truncated output repairs to a record with truthy `k`,
`callChat` returns immediately (one attempt, no delays) with a synthesized
success whose `choices[0].message.content` is the stringified repaired
record — no error is raised. -/
theorem c10_error_output_repair (responses : Nat → FetchOutcome)
    (retries base : Nat) (jitter : Nat → Nat) (st : Nat) (body emo : List Char)
    (d r : Json)
    (h0 : responses 0 = .resp st body)
    (h1 : statusRetryable st = false)
    (h2 : statusOk st = false)
    (h3 : hasSub (lit "error_model_output") body = true)
    (h4 : jsonParse body = some d)
    (h5 : objGet d (lit "error_model_output") = some (.str emo))
    (h6 : emo ≠ [])
    (h7 : repairIncompleteJSON emo = some r)
    (h8 : repairedKTruthy r = true) :
    callChat responses retries base jitter =
        ⟨.ok (wrapContent (stringify r)), 1, []⟩ ∧
      getContent (wrapContent (stringify r)) = stringify r := by
  have h6' : jsTruthy (.str emo) = true := by
    simp [jsTruthy, h6]
  have ha : attemptResult (responses 0) = .ok (wrapContent (stringify r)) := by
    rw [h0]
    simp [attemptResult, h1, h2, h3, h4, h5, h6', h7, h8]
  exact ⟨by simp [callChat, callChatGo, ha], getContent_wrapContent _⟩

/-- The truncated model output of the C10 witness. -/
def c10Emo : List Char := lit "\x7b\"k\":2,\"goal\":\"g"

/-- The error body of the C10 witness: valid JSON embedding `c10Emo`. -/
def c10Body : List Char :=
  stringify (.obj [ (lit "error", .str (lit "truncated"))
                  , (lit "error_model_output", .str c10Emo) ])

/-- The repaired record for the C10 witness. -/
def c10Repaired : Json :=
  .obj
    [ (lit "k", .num ['2'])
    , (lit "goal", .str (lit "g"))
    , (lit "analysis", .str (lit "Continuing the solution"))
    , (lit "equations", .arr [])
    , (lit "result_summary", .str truncatedSummary) ]

/-- C10, witness: a concrete 400 response embedding a repairable truncated
output makes `callChat` return the synthesized success on the first attempt. -/
theorem c10_error_output_repair_witness :
    callChat (fun _ => .resp 400 c10Body) 3 500 (fun _ => 0) =
        ⟨.ok (wrapContent (stringify c10Repaired)), 1, []⟩ ∧
      getContent (wrapContent (stringify c10Repaired)) = stringify c10Repaired :=
  c10_error_output_repair (fun _ => .resp 400 c10Body) 3 500 (fun _ => 0)
    400 c10Body c10Emo
    (.obj [ (lit "error", .str (lit "truncated"))
          , (lit "error_model_output", .str c10Emo) ])
    c10Repaired rfl (by decide) (by decide) (by decide) rfl rfl
    (by decide) rfl rfl

/-! ## Claim C5 — extractor totality and fallback guarantee -/

/-- `indexOf` finds nothing exactly when the character does not occur. -/
lemma idxOfCh_eq_none_iff (ch : Char) (s : List Char) :
    idxOfCh ch s = none ↔ ch ∉ s := by
  induction s with
  | nil => simp [idxOfCh]
  | cons c cs ih =>
      by_cases h : c = ch
      · subst h
        simp [idxOfCh]
      · simp only [idxOfCh, if_neg h, Option.map_eq_none', ih, List.mem_cons,
          not_or]
        exact ⟨fun hn => ⟨fun hc => h hc.symm, hn⟩, fun hn => hn.2⟩

/-- The repairer returns a record whenever the input contains a `{`. -/
lemma repairIncompleteJSON_isSome (s : List Char) (h : lbrace ∈ s) :
    ∃ r, repairIncompleteJSON s = some r := by
  have hne : s ≠ [] := List.ne_nil_of_mem h
  have hempty : s.isEmpty = false := by
    simpa [List.isEmpty_eq_false] using hne
  have hidx : idxOfCh lbrace s ≠ none :=
    fun hc => ((idxOfCh_eq_none_iff _ _).mp hc) h
  obtain ⟨i, hi⟩ := Option.ne_none_iff_exists'.mp hidx
  cases hp : jsonParse (repairCandidate s) with
  | none => exact ⟨fallbackRecord s, by simp [repairIncompleteJSON, hempty, hi, hp]⟩
  | some parsed =>
      exact ⟨ensureFields parsed, by simp [repairIncompleteJSON, hempty, hi, hp]⟩

/-- With no `{` in the input, no stage of the extractor can produce
anything. -/
lemma extractJSON_eq_none_of_not_mem (s : List Char) (h : lbrace ∉ s) :
    extractJSON s = none := by
  by_cases hnil : s = []
  · subst hnil; rfl
  · have hempty : s.isEmpty = false := by
      simpa [List.isEmpty_eq_false] using hnil
    have hidx : idxOfCh lbrace s = none := (idxOfCh_eq_none_iff _ _).mpr h
    have hgreedy : greedyCandidate s = none := by
      cases hr : idxOfCh rbrace s.reverse <;> simp [greedyCandidate, hidx, hr]
    have hpos : positionsOfCh lbrace s = [] := by
      rw [positionsOfCh, List.filter_eq_nil_iff]
      intro i _
      simp only [decide_eq_true_eq]
      intro hget
      exact h (List.get?_mem hget)
    simp [extractJSON, hempty, hgreedy, hpos, tryStarts,
      repairIncompleteJSON, hidx]

/-- C5.  `extract` is total (modelled as a pure function it cannot throw) and
returns `null` exactly when the input contains no `{` at all; whenever a `{`
is present and the greedy parse, every balanced-span parse, and the truncation
repair's re-parse all fail, it returns the minimal fallback record — the
regex-recovered `k` (default 1), the placeholder `goal`/`analysis`/
`result_summary` strings flagging truncation, and an empty equation list. -/
theorem c5_extractor_fallback (s : List Char) :
    (extractJSON s = none ↔ lbrace ∉ s) ∧
      (lbrace ∈ s →
        (greedyCandidate s).bind jsonParse = none →
        tryStarts s (positionsOfCh lbrace s) = none →
        jsonParse (repairCandidate s) = none →
        extractJSON s = some (fallbackRecord s)) := by
  constructor
  · constructor
    · intro hnone hmem
      have hne : s ≠ [] := List.ne_nil_of_mem hmem
      have hempty : s.isEmpty = false := by
        simpa [List.isEmpty_eq_false] using hne
      obtain ⟨r, hr⟩ := repairIncompleteJSON_isSome s hmem
      rw [extractJSON, hempty] at hnone
      simp only [Bool.false_eq_true, if_false] at hnone
      cases h1 : (greedyCandidate s).bind jsonParse with
      | some v => rw [h1] at hnone; cases hnone
      | none =>
          rw [h1] at hnone
          cases h2 : tryStarts s (positionsOfCh lbrace s) with
          | some v => rw [h2] at hnone; cases hnone
          | none =>
              rw [h2, hr] at hnone
              cases hnone
    · exact extractJSON_eq_none_of_not_mem s
  · intro hmem h1 h2 h3
    have hne : s ≠ [] := List.ne_nil_of_mem hmem
    have hempty : s.isEmpty = false := by
      simpa [List.isEmpty_eq_false] using hne
    have hidx : idxOfCh lbrace s ≠ none :=
      fun hc => ((idxOfCh_eq_none_iff _ _).mp hc) hmem
    obtain ⟨i, hi⟩ := Option.ne_none_iff_exists'.mp hidx
    rw [extractJSON, hempty]
    simp only [Bool.false_eq_true, if_false, h1, h2]
    simp [repairIncompleteJSON, hempty, hi, h3]

/-- A truncated input on which every parsing stage fails. -/
def c5Trunc : List Char := lit "\x7b\"q\": "

/-- C5, witness: on `{"q": ` every stage fails and the minimal fallback (with
default `k` 1 and the truncation placeholders) is produced; an input without
any `{` yields `none`. -/
theorem c5_extractor_fallback_witness :
    extractJSON c5Trunc = some (fallbackRecord c5Trunc) ∧
      extractJSON (lit "no braces here") = none :=
  ⟨(c5_extractor_fallback c5Trunc).2 (by decide) rfl rfl rfl,
    (c5_extractor_fallback (lit "no braces here")).1.mpr (by decide)⟩

/-! ## Claim C3 — engine-assigned iteration numbering

The engine stores `{ ...parsed, k }`.  To see that the stored `k` is
observable we first show that every record produced by the extractor is a
JSON object (every candidate string handed to the parser starts with `{`). -/

/-- Is the value a JSON object? -/
def isObjB : Json → Bool
  | .obj _ => true
  | _ => false

/-- Successful object-member parses produce objects. -/
lemma parseObjItems_isObj :
    ∀ (fuel : Nat) (cs : List Char) (acc : List (List Char × Json))
      (v : Json) (rest : List Char),
      parseObjItems fuel cs acc = some (v, rest) → isObjB v = true := by
  intro fuel
  induction fuel with
  | zero => intro cs acc v rest h; simp [parseObjItems] at h
  | succ fuel ih =>
      intro cs acc v rest h
      rw [parseObjItems] at h
      repeat' split at h
      all_goals
        first
          | exact Option.noConfusion h
          | (cases h; rfl)
          | exact ih _ _ _ _ h

/-- Parsing a string that starts with `{` yields an object. -/
lemma jsonParse_brace_obj (t : List Char) (v : Json)
    (h : jsonParse (lbrace :: t) = some v) : isObjB v = true := by
  rw [jsonParse] at h
  split at h
  · rename_i p hp
    rw [parseVal] at hp
    rw [show (lbrace :: t).dropWhile isJsonWs = lbrace :: t from by
      rw [List.dropWhile_cons]; simp [isJsonWs, lbrace]] at hp
    simp only [if_pos rfl] at hp
    split at h
    · cases h
      exact parseObjItems_isObj _ _ _ _ _ hp
    · cases h
  · cases h

/-- `indexOf` really points at the character. -/
lemma idxOfCh_get (ch : Char) :
    ∀ (s : List Char) (i : Nat), idxOfCh ch s = some i → s.get? i = some ch := by
  intro s
  induction s with
  | nil => intro i h; simp [idxOfCh] at h
  | cons c cs ih =>
      intro i h
      by_cases hc : c = ch
      · subst hc
        simp [idxOfCh] at h
        subst h
        rfl
      · rw [idxOfCh, if_neg hc] at h
        cases hi : idxOfCh ch cs with
        | none => rw [hi] at h; cases h
        | some j =>
            rw [hi] at h
            cases h
            simpa using ih j hi

/-- Dropping up to a found character exposes it at the head. -/
lemma drop_eq_cons_of_get? (s : List Char) (i : Nat) (c : Char)
    (h : s.get? i = some c) : s.drop i = c :: s.drop (i + 1) := by
  have hlen : i < s.length := by
    by_contra hge
    rw [List.get?_eq_none.mpr (by omega)] at h
    cases h
  rw [List.drop_eq_getElem_cons hlen]
  congr 1
  have h2 := List.get?_eq_getElem? s i
  rw [h, List.getElem?_eq_getElem hlen] at h2
  exact (Option.some_injective _ h2.symm)

/-- The greedy regex candidate starts with `{`. -/
lemma greedyCandidate_head (s c : List Char) (h : greedyCandidate s = some c) :
    ∃ t, c = lbrace :: t := by
  rw [greedyCandidate] at h
  split at h
  · rename_i i revJ hi hj
    split at h
    · cases h
      rw [drop_eq_cons_of_get? s i lbrace (idxOfCh_get lbrace s i hi),
        List.take_succ_cons]
      exact ⟨_, rfl⟩
    · cases h
  · cases h

/-- `balancedSpan.go` only extends its accumulator. -/
lemma balancedSpan_go_prefix :
    ∀ (cs : List Char) (depth : Int) (acc out : List Char),
      balancedSpan.go cs depth acc = some out → ∃ t, out = acc ++ t := by
  intro cs
  induction cs with
  | nil => intro depth acc out h; simp [balancedSpan.go] at h
  | cons c cs ih =>
      intro depth acc out h
      rw [balancedSpan.go] at h
      split at h
      · obtain ⟨t, ht⟩ := ih _ _ _ h
        exact ⟨c :: t, by rw [ht]; simp⟩
      · split at h
        · split at h
          · cases h
            exact ⟨[c], rfl⟩
          · obtain ⟨t, ht⟩ := ih _ _ _ h
            exact ⟨c :: t, by rw [ht]; simp⟩
        · obtain ⟨t, ht⟩ := ih _ _ _ h
          exact ⟨c :: t, by rw [ht]; simp⟩

/-- A balanced span extracted from a `{`-headed suffix starts with `{`. -/
lemma balancedSpan_head (cs out : List Char)
    (h : balancedSpan (lbrace :: cs) = some out) : ∃ t, out = lbrace :: t := by
  rw [balancedSpan] at h
  rw [balancedSpan.go] at h
  rw [if_pos rfl] at h
  obtain ⟨t, ht⟩ := balancedSpan_go_prefix _ _ _ _ h
  exact ⟨t, by simpa using ht⟩

/-- Stage-2 extraction over `{` positions yields objects. -/
lemma tryStarts_isObj (s : List Char) :
    ∀ (ps : List Nat) (v : Json),
      (∀ p ∈ ps, s.get? p = some lbrace) →
      tryStarts s ps = some v → isObjB v = true := by
  intro ps
  induction ps with
  | nil => intro v _ h; simp [tryStarts] at h
  | cons p ps ih =>
      intro v hmem h
      rw [tryStarts] at h
      cases hcand : balancedSpan (s.drop p) with
      | none =>
          rw [hcand] at h
          exact ih v (fun q hq => hmem q (by simp [hq])) h
      | some cand =>
          rw [hcand] at h
          rw [drop_eq_cons_of_get? s p lbrace (hmem p (by simp))] at hcand
          obtain ⟨t, ht⟩ := balancedSpan_head _ _ hcand
          subst ht
          dsimp only at h
          cases hw : jsonParse (lbrace :: t) with
          | none =>
              rw [hw] at h
              dsimp only at h
              exact ih v (fun q hq => hmem q (by simp [hq])) h
          | some w =>
              rw [hw] at h
              dsimp only at h
              cases h
              exact jsonParse_brace_obj _ _ hw

/-- `objSet` never changes whether a value is an object. -/
lemma objSet_isObj (j : Json) (k : List Char) (v : Json) :
    isObjB (objSet j k v) = isObjB j := by
  cases j <;> rfl

/-- The post-parse defaults keep the record an object. -/
lemma ensureFields_isObj (j : Json) : isObjB (ensureFields j) = isObjB j := by
  rw [ensureFields]
  repeat' split
  all_goals
    simp only [objSet_isObj]

/-- Every record the extractor returns is a JSON object. -/
lemma extractJSON_isObj (s : List Char) (p : Json)
    (h : extractJSON s = some p) : isObjB p = true := by
  by_cases hemp : s.isEmpty = true
  · rw [extractJSON, if_pos hemp] at h
    cases h
  · rw [extractJSON, if_neg hemp] at h
    cases h1 : (greedyCandidate s).bind jsonParse with
    | some v =>
        rw [h1] at h
        dsimp only at h
        cases h
        obtain ⟨cand, hg, hv⟩ := Option.bind_eq_some.mp h1
        obtain ⟨t, ht⟩ := greedyCandidate_head s cand hg
        subst ht
        exact jsonParse_brace_obj _ _ hv
    | none =>
        rw [h1] at h
        dsimp only at h
        cases h2 : tryStarts s (positionsOfCh lbrace s) with
        | some v =>
            rw [h2] at h
            dsimp only at h
            cases h
            refine tryStarts_isObj s _ p ?_ h2
            intro q hq
            rw [positionsOfCh] at hq
            have := List.of_mem_filter hq
            simpa using this
        | none =>
            rw [h2] at h
            dsimp only at h
            rw [repairIncompleteJSON, if_neg hemp] at h
            cases hstart : idxOfCh lbrace s with
            | none =>
                rw [hstart] at h
                dsimp only at h
                exact Option.noConfusion h
            | some istart =>
                rw [hstart] at h
                dsimp only at h
                cases hp : jsonParse (repairCandidate s) with
                | none =>
                    rw [hp] at h
                    dsimp only at h
                    cases h
                    rfl
                | some parsed =>
                    rw [hp] at h
                    dsimp only at h
                    cases h
                    rw [ensureFields_isObj]
                    rw [repairCandidate, hstart] at hp
                    dsimp only at hp
                    rw [drop_eq_cons_of_get? s istart lbrace
                      (idxOfCh_get lbrace s istart hstart)] at hp
                    exact jsonParse_brace_obj _ _ hp

/-- The equation-normalization pass keeps the record an object. -/
lemma normalizeParsed_isObj (j : Json) :
    isObjB (normalizeParsed j) = isObjB j := by
  rw [normalizeParsed]
  split
  · rw [objSet_isObj]
  · rfl

/-- Reading back a freshly written property. -/
lemma objGetGo_objSetGo (key : List Char) (v : Json) :
    ∀ fs, objGet.go key (objSet.go key v fs) = some v := by
  intro fs
  induction fs with
  | nil => simp [objSet.go, objGet.go]
  | cons kv rest ih =>
      obtain ⟨k', w⟩ := kv
      by_cases hk : k' = key
      · subst hk
        simp [objSet.go, objGet.go]
      · simp [objSet.go, objGet.go, hk, ih]

/-- On an object, a property write is observable. -/
lemma objGet_objSet_self (q : Json) (key : List Char) (v : Json)
    (h : isObjB q = true) : objGet (objSet q key v) key = some v := by
  cases q with
  | obj fs => exact objGetGo_objSetGo key v fs
  | null => simp [isObjB] at h
  | bool b => simp [isObjB] at h
  | num l => simp [isObjB] at h
  | str s => simp [isObjB] at h
  | arr xs => simp [isObjB] at h

/-- The numbering invariant of the engine's loop: starting from a history
whose `k` fields read `1, …, n` at round `n + 1`, any successful completion
yields a history whose `k` fields read `1, …, m` exactly. -/
lemma runLoop_ks (env : Env) (dl : List Char) :
    ∀ (fuel k : Nat) (acc : List Json) (revs : List Nat) (out : LoopOut),
      runLoop env dl fuel k acc revs = .ok out →
      k = acc.length + 1 →
      acc.map (fun it => objGet it (lit "k")) =
        (List.range acc.length).map (fun i => some (.num (natLex (i + 1)))) →
      out.iterations.map (fun it => objGet it (lit "k")) =
        (List.range out.iterations.length).map
          (fun i => some (.num (natLex (i + 1)))) := by
  intro fuel
  induction fuel with
  | zero =>
      intro k acc revs out h hk hinv
      rw [runLoop] at h
      cases h
      exact hinv
  | succ fuel ih =>
      intro k acc revs out h hk hinv
      have hpush : ∀ (p2 : Json), isObjB p2 = true →
          (acc ++ [objSet (normalizeParsed p2) (lit "k") (.num (natLex k))]).map
              (fun it => objGet it (lit "k")) =
            (List.range (acc ++ [objSet (normalizeParsed p2) (lit "k")
                (.num (natLex k))]).length).map
              (fun i => some (.num (natLex (i + 1)))) := by
        intro p2 hobj
        have hso : objGet (objSet (normalizeParsed p2) (lit "k")
            (.num (natLex k))) (lit "k") = some (.num (natLex k)) :=
          objGet_objSet_self _ _ _ (by rw [normalizeParsed_isObj]; exact hobj)
        rw [hk] at hso
        rw [List.map_append, hinv]
        rw [List.length_append]
        simp only [List.length_cons, List.length_nil]
        rw [List.range_succ, List.map_append]
        rw [hk]
        simp [hso]
      have haccept : ∀ (p2 : Json) (revs' : List Nat), isObjB p2 = true →
          (let p3 := normalizeParsed p2
           let stored := objSet p3 (lit "k") (.num (natLex k))
           let acc' := acc ++ [stored]
           match objGet p3 (lit "stop") with
           | some (.bool true) => (Except.ok ⟨acc', revs'⟩ :
               Except ChatError LoopOut)
           | _ => runLoop env dl fuel (k + 1) acc' revs') = .ok out →
          out.iterations.map (fun it => objGet it (lit "k")) =
            (List.range out.iterations.length).map
              (fun i => some (.num (natLex (i + 1)))) := by
        intro p2 revs' hobj hrun
        dsimp only at hrun
        have hk' : k + 1 =
            (acc ++ [objSet (normalizeParsed p2) (lit "k")
              (.num (natLex k))]).length + 1 := by
          rw [List.length_append]
          simp only [List.length_cons, List.length_nil]
          omega
        cases hstop : objGet (normalizeParsed p2) (lit "stop") with
        | none =>
            rw [hstop] at hrun
            exact ih (k + 1) _ revs' out hrun hk' (hpush p2 hobj)
        | some v =>
            rw [hstop] at hrun
            cases v with
            | bool b =>
                cases b with
                | true =>
                    cases hrun
                    exact hpush p2 hobj
                | false =>
                    exact ih (k + 1) _ revs' out hrun hk' (hpush p2 hobj)
            | null => exact ih (k + 1) _ revs' out hrun hk' (hpush p2 hobj)
            | num l => exact ih (k + 1) _ revs' out hrun hk' (hpush p2 hobj)
            | str s => exact ih (k + 1) _ revs' out hrun hk' (hpush p2 hobj)
            | arr xs => exact ih (k + 1) _ revs' out hrun hk' (hpush p2 hobj)
            | obj fs => exact ih (k + 1) _ revs' out hrun hk' (hpush p2 hobj)
      have hstep : ∀ (p0 : Json), isObjB p0 = true →
          (let last := acc.getLast?
           let chosen : Except ChatError (Option Json × List Nat) :=
             if validateIteration p0 last dl then .ok (some p0, revs)
             else
               match reviseIteration (env.reviseChat k) with
               | .error e => .error e
               | .ok (some r) =>
                   if validateIteration r last dl then
                     .ok (some r, revs ++ [k])
                   else .ok (none, revs ++ [k])
               | .ok none => .ok (none, revs ++ [k])
           (match chosen with
           | .error e => .error e
           | .ok (none, revs') => .ok ⟨acc, revs'⟩
           | .ok (some p1, revs') =>
               let p2 := normalizeParsed p1
               let stored := objSet p2 (lit "k") (.num (natLex k))
               let acc' := acc ++ [stored]
               match objGet p2 (lit "stop") with
               | some (.bool true) => Except.ok ⟨acc', revs'⟩
               | _ => runLoop env dl fuel (k + 1) acc' revs' :
             Except ChatError LoopOut)) = .ok out →
          out.iterations.map (fun it => objGet it (lit "k")) =
            (List.range out.iterations.length).map
              (fun i => some (.num (natLex (i + 1)))) := by
        intro p0 hobj hb
        dsimp only at hb
        cases hval : validateIteration p0 acc.getLast? dl with
        | true =>
            rw [if_pos hval] at hb
            exact haccept p0 revs hobj hb
        | false =>
            rw [if_neg (by simp [hval])] at hb
            cases hrv : env.reviseChat k with
            | error e =>
                simp only [reviseIteration, hrv, Except.map] at hb
                exact Except.noConfusion hb
            | ok d3 =>
                simp only [reviseIteration, hrv, Except.map] at hb
                cases hx3 : extractJSON (getContent d3) with
                | none =>
                    rw [hx3] at hb
                    dsimp only at hb
                    cases hb
                    exact hinv
                | some r =>
                    rw [hx3] at hb
                    dsimp only at hb
                    cases hval2 : validateIteration r acc.getLast? dl with
                    | true =>
                        rw [if_pos hval2] at hb
                        exact haccept r (revs ++ [k])
                          (extractJSON_isObj _ _ hx3) hb
                    | false =>
                        rw [if_neg (by simp [hval2])] at hb
                        cases hb
                        exact hinv
      rw [runLoop] at h
      cases hc : env.chat k with
      | error e =>
          rw [hc] at h
          exact Except.noConfusion h
      | ok data =>
          rw [hc] at h
          dsimp only at h
          cases hx : extractJSON (getContent data) with
          | some p0 =>
              rw [hx] at h
              dsimp only at h
              exact hstep p0 (extractJSON_isObj _ _ hx) h
          | none =>
              rw [hx] at h
              dsimp only at h
              cases hrc : env.repairChat k with
              | error e =>
                  simp only [tryRepairJSON, hrc, Except.map] at h
                  exact Except.noConfusion h
              | ok d2 =>
                  simp only [tryRepairJSON, hrc, Except.map] at h
                  cases hx2 : extractJSON (getContent d2) with
                  | none =>
                      rw [hx2] at h
                      dsimp only at h
                      cases h
                      exact hinv
                  | some p0 =>
                      rw [hx2] at h
                      dsimp only at h
                      exact hstep p0 (extractJSON_isObj _ _ hx2) h

/-- Completing a run only renders the loop's accepted iterations; the result
carries them unchanged together with a document built from them. -/
lemma finishRun_spec (env : Env) (model : List Char) (context : Json)
    (dl : List Char) (lp : LoopOut) (res : SolveResult)
    (h : finishRun env model context dl lp = .ok res) :
    res.iterations = lp.iterations ∧ res.reviseRounds = lp.reviseRounds ∧
      ∃ fin, res.latex = buildLatexDocument (metaOf context) lp.iterations fin := by
  rw [finishRun] at h
  split at h
  · cases h
  · rename_i app ml hsyn
    cases h
    exact ⟨rfl, rfl, _, rfl⟩

/-- C3.  For every successful run, the `k` fields of the accepted iterations
read exactly `[1, 2, …, n]`: strictly increasing and contiguous from 1,
assigned by the engine's `{ ...parsed, k }` override regardless of any `k`
the model returned. -/
theorem c3_iteration_numbering (env : Env) (model : List Char)
    (context : Json) (maxIterations : Nat) (detailLevel strategy : List Char)
    (res : SolveResult)
    (h : solveSchrodingerIterative env model context maxIterations detailLevel
      strategy = .ok res) :
    res.iterations.map (fun it => objGet it (lit "k")) =
      (List.range res.iterations.length).map
        (fun i => some (.num (natLex (i + 1)))) := by
  rw [solveSchrodingerIterative] at h
  cases hl : runLoop env detailLevel
      (totalLoopsOf env.planFetch strategy maxIterations detailLevel) 1 [] [] with
  | error e =>
      rw [hl] at h
      exact Except.noConfusion h
  | ok lp =>
      rw [hl] at h
      dsimp only at h
      obtain ⟨hit, _, _⟩ := finishRun_spec env model context detailLevel lp res h
      rw [hit]
      exact runLoop_ks env detailLevel _ 1 [] [] lp hl rfl (by simp)

/-- Round-1 content of the C3 witness run: the model reports `k = 99`. -/
def c3It1 : Json := objSet c4GoodIt (lit "k") (.num ['9', '9'])

/-- Round-2 content of the C3 witness run, distinct equations, again
`k = 99`. -/
def c3It2 : Json :=
  objSet (objSet c4GoodIt (lit "k") (.num ['9', '9'])) (lit "equations")
    (.arr
      [ mkTestEq (lit "b1=1") (lit "first step justified")
      , mkTestEq (lit "b2=2") (lit "second step justified")
      , mkTestEq (lit "b3=3") (lit "third step justified")
      , mkTestEq (lit "b4=4") (lit "fourth step justified")
      , mkTestEq (lit "b5=5") (lit "fifth step justified") ])

/-- A two-round environment whose model output carries wrong `k` values. -/
def c3Env : Env :=
  { chat := fun k =>
      .ok (wrapContent (stringify (if k = 1 then c3It1 else c3It2)))
  , repairChat := fun _ => .ok (.obj [])
  , reviseChat := fun _ => .ok (.obj [])
  , synthChat := .ok (.obj [])
  , planFetch := .notOk }

/-- C3, witness: the concrete two-round run stores `k = 1, 2` even though the
model returned `k = 99` in both rounds. -/
theorem c3_iteration_numbering_witness :
    ∃ res, solveSchrodingerIterative c3Env (lit "m") (.obj []) 2 (lit "basic")
        (lit "baseline") = .ok res ∧
      res.iterations.map (fun it => objGet it (lit "k")) =
        [some (.num ['1']), some (.num ['2'])] := by
  cases hres : solveSchrodingerIterative c3Env (lit "m") (.obj []) 2
      (lit "basic") (lit "baseline") with
  | error e =>
      have hok : (solveSchrodingerIterative c3Env (lit "m") (.obj []) 2
          (lit "basic") (lit "baseline")).isOk = true := rfl
      rw [hres] at hok
      simp [Except.isOk, Except.toBool] at hok
  | ok res =>
      refine ⟨res, rfl, ?_⟩
      have hks := c3_iteration_numbering c3Env (lit "m") (.obj []) 2
        (lit "basic") (lit "baseline") res hres
      have hlen : res.iterations.length = 2 := by
        have h2 : (match solveSchrodingerIterative c3Env (lit "m") (.obj []) 2
            (lit "basic") (lit "baseline") with
          | .ok r => r.iterations.length
          | .error _ => 0) = 2 := rfl
        rw [hres] at h2
        exact h2
      rw [hks, hlen]
      rfl

/-! ## Claim C2 — graceful degradation on quality-gate failure -/

/-- `finishRun` can only raise when the appendix-synthesis branch is active
and the synthesis chat call itself fails. -/
lemma finishRun_error (env : Env) (model : List Char) (context : Json)
    (dl : List Char) (lp : LoopOut) (e : ChatError)
    (h : finishRun env model context dl lp = .error e) :
    env.synthChat = .error e ∧ isSmallModel model = false ∧
      (dl = lit "exhaustive" ∨ dl = lit "standard") := by
  rw [finishRun] at h
  split at h
  · rename_i e' hsyn
    cases h
    split at hsyn
    · rename_i hcond
      simp only [Bool.and_eq_true, Bool.not_eq_true', Bool.or_eq_true,
        decide_eq_true_eq] at hcond
      cases hsc : env.synthChat with
      | error e2 =>
          simp only [synthesizeAppendix, hsc, Except.map] at hsyn
          cases hsyn
          exact ⟨rfl, hcond.1.1, hcond.2⟩
      | ok sj =>
          simp only [synthesizeAppendix, hsc, Except.map] at hsyn
          split at hsyn <;> cases hsyn
    · cases hsyn
  · cases h

/-- C2.  When round 2's candidate fails the Validator and the single revision
attempt also fails (or cannot be extracted), the run terminates early but
successfully: no error is raised, the result carries exactly the iteration
accepted in round 1, the Reviser was consulted exactly once (in round 2), and
the rendered LaTeX document is built from those accepted iterations.  The
run's chat calls outside the failing round are assumed to respond (an
exhausted-retry exception anywhere would abort any run). -/
theorem c2_graceful_degradation (env : Env) (model : List Char)
    (context : Json) (maxIterations : Nat) (detailLevel strategy : List Char)
    (d1 d2 dr p1 p2 : Json)
    (h1 : env.chat 1 = .ok d1)
    (h2 : extractJSON (getContent d1) = some p1)
    (h3 : validateIteration p1 none detailLevel = true)
    (h4 : objGet (normalizeParsed p1) (lit "stop") = none)
    (h5 : env.chat 2 = .ok d2)
    (h6 : extractJSON (getContent d2) = some p2)
    (h7 : validateIteration p2
      (some (objSet (normalizeParsed p1) (lit "k") (.num (natLex 1))))
      detailLevel = false)
    (h8 : env.reviseChat 2 = .ok dr)
    (h9 : ∀ r, extractJSON (getContent dr) = some r →
      validateIteration r
        (some (objSet (normalizeParsed p1) (lit "k") (.num (natLex 1))))
        detailLevel = false)
    (h10 : 2 ≤ totalLoopsOf env.planFetch strategy maxIterations detailLevel)
    (h11 : isSmallModel model = true ∨ (∃ sj, env.synthChat = .ok sj) ∨
      (detailLevel ≠ lit "exhaustive" ∧ detailLevel ≠ lit "standard")) :
    ∃ res fin,
      solveSchrodingerIterative env model context maxIterations detailLevel
          strategy = .ok res ∧
        res.iterations =
          [objSet (normalizeParsed p1) (lit "k") (.num (natLex 1))] ∧
        res.reviseRounds = [2] ∧
        res.latex = buildLatexDocument (metaOf context) res.iterations fin := by
  obtain ⟨m, hm⟩ : ∃ m,
      totalLoopsOf env.planFetch strategy maxIterations detailLevel = m + 2 :=
    ⟨totalLoopsOf env.planFetch strategy maxIterations detailLevel - 2,
      by omega⟩
  have h7' : ¬(validateIteration p2
      (List.getLast? ([] ++ [objSet (normalizeParsed p1) (lit "k")
        (.num (natLex 1))])) detailLevel = true) := by
    intro hcontra
    rw [show (List.getLast? ([] ++ [objSet (normalizeParsed p1) (lit "k")
        (.num (natLex 1))])) =
      some (objSet (normalizeParsed p1) (lit "k") (.num (natLex 1)))
      from rfl] at hcontra
    rw [h7] at hcontra
    cases hcontra
  have hloop : runLoop env detailLevel (m + 2) 1 [] [] =
      .ok ⟨[objSet (normalizeParsed p1) (lit "k") (.num (natLex 1))], [2]⟩ := by
    rw [runLoop, h1]
    try dsimp only
    rw [h2]
    try dsimp only
    rw [if_pos (show validateIteration p1 (List.getLast? ([] : List Json))
      detailLevel = true from h3)]
    try dsimp only
    rw [h4]
    try dsimp only
    rw [runLoop, h5]
    try dsimp only
    rw [h6]
    try dsimp only
    rw [if_neg h7']
    try dsimp only
    simp only [reviseIteration, h8, Except.map]
    cases hx : extractJSON (getContent dr) with
    | none =>
        try dsimp only
        rfl
    | some r =>
        try dsimp only
        have h9' : ¬(validateIteration r
            (List.getLast? ([] ++ [objSet (normalizeParsed p1) (lit "k")
              (.num (natLex 1))])) detailLevel = true) := by
          intro hcontra
          rw [show (List.getLast? ([] ++ [objSet (normalizeParsed p1)
              (lit "k") (.num (natLex 1))])) =
            some (objSet (normalizeParsed p1) (lit "k") (.num (natLex 1)))
            from rfl] at hcontra
          rw [h9 r hx] at hcontra
          cases hcontra
        rw [if_neg h9']
        rfl
  cases hfr : finishRun env model context detailLevel
      ⟨[objSet (normalizeParsed p1) (lit "k") (.num (natLex 1))], [2]⟩ with
  | error e =>
      exfalso
      obtain ⟨hsynErr, hsmall, hdl⟩ :=
        finishRun_error env model context detailLevel _ e hfr
      rcases h11 with hs | ⟨sj, hsj⟩ | ⟨hne, hns⟩
      · rw [hs] at hsmall
        cases hsmall
      · rw [hsj] at hsynErr
        cases hsynErr
      · rcases hdl with hd | hd
        · exact hne hd
        · exact hns hd
  | ok res =>
      obtain ⟨hit, hrev, fin, hlat⟩ :=
        finishRun_spec env model context detailLevel _ res hfr
      refine ⟨res, fin, ?_, hit, hrev, by rw [hlat, hit]⟩
      rw [solveSchrodingerIterative, hm, hloop]
      exact hfr

/-- Round-2 candidate of the C2 witness: valid JSON whose equation count is
below the minimum, so the Validator rejects it. -/
def c2Bad : Json :=
  objSet c4GoodIt (lit "equations") (.arr
    [ mkTestEq (lit "b1=1") (lit "first step justified")
    , mkTestEq (lit "b2=2") (lit "second step justified")
    , mkTestEq (lit "b3=3") (lit "third step justified") ])

/-- A run whose round-2 candidate and revision both fail validation. -/
def c2Env : Env :=
  { chat := fun k =>
      .ok (wrapContent (stringify (if k = 1 then c4GoodIt else c2Bad)))
  , repairChat := fun _ => .ok (.obj [])
  , reviseChat := fun _ => .ok (wrapContent (stringify c2Bad))
  , synthChat := .ok (.obj [])
  , planFetch := .notOk }

/-- C2, witness: with a small model (appendix skipped), two loop rounds, a
round-2 candidate failing validation and a failing revision, the run returns
exactly the round-1 iteration plus a document built from it. -/
theorem c2_graceful_degradation_witness :
    ∃ res fin,
      solveSchrodingerIterative c2Env (lit "m8B") (.obj []) 2 (lit "basic")
          (lit "baseline") = .ok res ∧
        res.iterations =
          [objSet (normalizeParsed c4GoodIt) (lit "k") (.num (natLex 1))] ∧
        res.reviseRounds = [2] ∧
        res.latex = buildLatexDocument (metaOf (.obj [])) res.iterations fin := by
  refine c2_graceful_degradation c2Env (lit "m8B") (.obj []) 2 (lit "basic")
    (lit "baseline") (wrapContent (stringify c4GoodIt))
    (wrapContent (stringify c2Bad)) (wrapContent (stringify c2Bad))
    c4GoodIt c2Bad rfl rfl (by decide) rfl rfl rfl (by decide) rfl ?_
    (by decide) (Or.inl (by decide))
  intro r hr
  have hr0 : extractJSON (getContent (wrapContent (stringify c2Bad))) =
      some c2Bad := rfl
  rw [hr0] at hr
  cases hr
  decide

end SchroPipeline
